import Mathlib

/-!
Shallow embedding of src/main.py (asuit-mmg), a monitor for a public
medical-registry listing.

Python dicts are modelled as association lists in insertion order (Dict);
dict assignment as dset (update in place when the key is present, append
otherwise).  External effects are explicit inputs: the per-doctor detail page
is an oracle returning the bold-tag texts on success and none when the
request or parse raises; the clock, the environment configuration, the state
file and the Telegram delivery outcome are parameters of the run.  Fetch
invocations and file writes appear in the returned results so that the
effect-related sentences of the spec can be stated.
-/

namespace MMG

/-- A doctor record as produced by scrape_doctor_list (src/main.py:156-161).
The optional locations field models the key that detect_changes may add to a
record in place (src/main.py:280, 288, 302); records coming from the listing
scrape never carry it. -/
structure Doctor where
  id : String
  first_name : String
  last_name : String
  availability : String
  locations : Option (List String) := none
deriving DecidableEq

/-- A location-cache entry as written by get_doctor_locations
(src/main.py:230-233). -/
structure CacheEntry where
  locations : List String
  timestamp : Int
deriving DecidableEq

/-- A Python dict in insertion order. -/
abbrev Dict (α : Type) := List (String × α)

/-- Dict lookup, the first entry with the given key. -/
def dget {α : Type} : Dict α → String → Option α
  | [], _ => none
  | (k', v) :: rest, k => if k' = k then some v else dget rest k

/-- Membership test, Python `k in d`. -/
def dmem {α : Type} (d : Dict α) (k : String) : Bool :=
  (dget d k).isSome

/-- Dict assignment: overwrite in place when the key is present, append at the
end otherwise (CPython's insertion-order semantics). -/
def dset {α : Type} : Dict α → String → α → Dict α
  | [], k, v => [(k, v)]
  | (k', v') :: rest, k, v =>
    if k' = k then (k, v) :: rest else (k', v') :: dset rest k v

/-- The dict comprehension keyed by id over a doctor list
(src/main.py:268 and 448, 469). -/
def dictOfList (ds : List Doctor) : Dict Doctor :=
  ds.foldl (fun acc d => dset acc d.id d) []

/-- The keys of a dict, in order. -/
def dkeys {α : Type} (d : Dict α) : List String :=
  d.map (fun kv => kv.1)

/-- The ids of a doctor list, in order. -/
def doctorIds (ds : List Doctor) : List String :=
  ds.map (fun d => d.id)

/-- Well-formedness of a snapshot dict: every record is stored under its own
id (the snapshot invariant of the spec, and what dictOfList produces). -/
def wfDict (d : Dict Doctor) : Prop :=
  ∀ kv ∈ d, (kv : String × Doctor).2.id = kv.1

instance (d : Dict Doctor) : Decidable (wfDict d) :=
  List.decidableBAll (fun kv : String × Doctor => kv.2.id = kv.1) d

/-- Persisted state: the top-level document with doctors and location_cache
(src/main.py:22-52, 447-450, 468-471). -/
structure State where
  doctors : Dict Doctor
  location_cache : Dict CacheEntry
deriving DecidableEq

/-- Outcome of the detail-page HTTP request and parse: the texts of the bold
tags when everything succeeds, none when any exception is raised inside the
try block of scrape_doctor_locations. -/
abbrev DetailPage := Option (List String)

/-- Embeds scrape_doctor_locations (src/main.py:166-199): on success, keep the
bold-tag texts starting with the Comune prefix, strip the prefix, drop empty
and duplicate results; on any exception return the empty list. -/
def scrape_doctor_locations (page : DetailPage) : List String :=
  match page with
  | none => []
  | some texts =>
    texts.foldl
      (fun locations text =>
        if text.startsWith "Comune:" then
          let location := (text.replace "Comune:" "").trim
          if location ≠ "" ∧ location ∉ locations then locations ++ [location]
          else locations
        else locations)
      []

/-- Embeds get_doctor_detail_url (src/main.py:55-65). -/
def get_doctor_detail_url (doctor_id : String) : String :=
  "https://servizi.apss.tn.it/ricmedico/medico.php?codMedicoMg=" ++ doctor_id

/-- Result of get_doctor_locations: the returned list, the cache after the
call, and whether the detail fetch was invoked. -/
structure LookupResult where
  locations : List String
  cache : Dict CacheEntry
  fetched : Bool
deriving DecidableEq

/-- Embeds get_doctor_locations (src/main.py:202-238).  cache_days models
LOCATION_CACHE_DAYS, current_time models int(time.time()). -/
def get_doctor_locations (doctor_id : String) (page : DetailPage)
    (location_cache : Dict CacheEntry) (cache_days : Int) (current_time : Int) :
    LookupResult :=
  let cache_expiry_seconds := cache_days * 24 * 3600
  match dget location_cache doctor_id with
  | some cached =>
    if current_time - cached.timestamp < cache_expiry_seconds then
      { locations := cached.locations, cache := location_cache, fetched := false }
    else
      let locations := scrape_doctor_locations page
      { locations := locations
        cache := dset location_cache doctor_id
          { locations := locations, timestamp := current_time }
        fetched := true }
  | none =>
    let locations := scrape_doctor_locations page
    { locations := locations
      cache := dset location_cache doctor_id
        { locations := locations, timestamp := current_time }
      fetched := true }

/-- The two chained permissive lookups of the removed branch,
location_cache.get(doc_id, empty).get(locations-key, empty list)
(src/main.py:287-288). -/
def cachedLocations (location_cache : Dict CacheEntry) (doc_id : String) :
    List String :=
  match dget location_cache doc_id with
  | some c => c.locations
  | none => []

/-- The in-place write of the locations key into a shared record object,
doctor['locations'] = locations (src/main.py:280, 288, 302). -/
def withLocations (d : Doctor) (ls : List String) : Doctor :=
  { d with locations := some ls }

/-- Result of the added loop: the added list, the current_ids items after the
in-place locations writes, the threaded cache, and the ids whose detail page
was actually fetched. -/
structure AddedOut where
  added : List Doctor
  items : Dict Doctor
  cache : Dict CacheEntry
  fetched : List String
deriving DecidableEq

/-- The first loop of detect_changes (src/main.py:272-281): ids of current not
in previous are added; their locations are resolved through the cache and
written into the record in place. -/
def addedLoop (previous_ids : Dict Doctor) (fetch : String → DetailPage)
    (cache_days now : Int) : Dict Doctor → Dict CacheEntry → AddedOut
  | [], cache => { added := [], items := [], cache := cache, fetched := [] }
  | (doc_id, doctor) :: rest, cache =>
    if dmem previous_ids doc_id then
      let out := addedLoop previous_ids fetch cache_days now rest cache
      { out with items := (doc_id, doctor) :: out.items }
    else
      let r := get_doctor_locations doctor.id
        (fetch (get_doctor_detail_url doctor.id)) cache cache_days now
      let doctor' := withLocations doctor r.locations
      let out := addedLoop previous_ids fetch cache_days now rest r.cache
      { added := doctor' :: out.added
        items := (doc_id, doctor') :: out.items
        cache := out.cache
        fetched := if r.fetched then doctor.id :: out.fetched else out.fetched }

/-- The second loop of detect_changes (src/main.py:284-289): ids of previous
not in current are removed; their locations are read from the cache without
fetching, and the write goes into the previous-state record in place, which is
why the updated previous items are part of the result. -/
def removedLoop (current_ids : Dict Doctor) (location_cache : Dict CacheEntry) :
    Dict Doctor → List Doctor × Dict Doctor
  | [] => ([], [])
  | (doc_id, doctor) :: rest =>
    let out := removedLoop current_ids location_cache rest
    if dmem current_ids doc_id then
      (out.1, (doc_id, doctor) :: out.2)
    else
      let doctor' := withLocations doctor (cachedLocations location_cache doc_id)
      (doctor' :: out.1, (doc_id, doctor') :: out.2)

/-- Result of the changed loop: the changed triples, the current_ids items
after the in-place locations writes, the threaded cache, and the fetched
ids. -/
structure ChangedOut where
  changed : List (Doctor × String × String)
  items : Dict Doctor
  cache : Dict CacheEntry
  fetched : List String
deriving DecidableEq

/-- The third loop of detect_changes (src/main.py:292-307): ids present in
both snapshots whose availability differs are changed; locations are resolved
through the cache and written into the current record in place. -/
def changedLoop (previous_ids : Dict Doctor) (fetch : String → DetailPage)
    (cache_days now : Int) : Dict Doctor → Dict CacheEntry → ChangedOut
  | [], cache => { changed := [], items := [], cache := cache, fetched := [] }
  | (doc_id, current_doctor) :: rest, cache =>
    match dget previous_ids doc_id with
    | some previous_doctor =>
      if current_doctor.availability ≠ previous_doctor.availability then
        let r := get_doctor_locations current_doctor.id
          (fetch (get_doctor_detail_url current_doctor.id)) cache cache_days now
        let doctor' := withLocations current_doctor r.locations
        let out := changedLoop previous_ids fetch cache_days now rest r.cache
        { changed :=
            (doctor', previous_doctor.availability, current_doctor.availability)
              :: out.changed
          items := (doc_id, doctor') :: out.items
          cache := out.cache
          fetched :=
            if r.fetched then current_doctor.id :: out.fetched else out.fetched }
      else
        let out := changedLoop previous_ids fetch cache_days now rest cache
        { out with items := (doc_id, current_doctor) :: out.items }
    | none =>
      let out := changedLoop previous_ids fetch cache_days now rest cache
      { out with items := (doc_id, current_doctor) :: out.items }

/-- The change-set dict built by detect_changes (src/main.py:261-266); its
location_cache field holds the cache as it stands when the function returns. -/
structure ChangeSet where
  added : List Doctor
  removed : List Doctor
  changed : List (Doctor × String × String)
  location_cache : Dict CacheEntry
deriving DecidableEq

/-- Result of detect_changes.  Because the Python function mutates the shared
record objects, the embedding also returns the current_ids dict and the
previous-state doctors dict as they stand after the call. -/
structure DetectResult where
  changes : ChangeSet
  current_ids : Dict Doctor
  previous_doctors : Dict Doctor
  fetched : List String
deriving DecidableEq

/-- Embeds detect_changes (src/main.py:241-309).  The three loops run in
source order and thread the one shared location_cache; the removed loop tests
membership against current_ids as it stands after the added loop (same keys,
records possibly extended with locations) and never touches the cache. -/
def detect_changes (current_doctors : List Doctor) (previous_state : State)
    (location_cache : Dict CacheEntry) (fetch : String → DetailPage)
    (cache_days now : Int) : DetectResult :=
  let current_ids := dictOfList current_doctors
  let previous_ids := previous_state.doctors
  let a := addedLoop previous_ids fetch cache_days now current_ids location_cache
  let rm := removedLoop a.items a.cache previous_ids
  let c := changedLoop rm.2 fetch cache_days now a.items a.cache
  { changes :=
      { added := a.added
        removed := rm.1
        changed := c.changed
        location_cache := c.cache }
    current_ids := c.items
    previous_doctors := rm.2
    fetched := a.fetched ++ c.fetched }

/-- The environment configuration read by main, get_search_url and
get_doctor_locations.  Python's os.getenv returns None for an unset variable
and main rejects empty strings the same way (src/main.py:417-421), so an
unset variable is modelled as the empty string. -/
structure Config where
  bot_token : String
  channel_id : String
  search_mode : String
  ambito_id : String
  comune_code : String
  cache_days : Int
deriving DecidableEq

/-- Models Python's str.lower() as a character-wise lowercase map over the
string's characters. -/
def toLowerStr (s : String) : String :=
  String.mk (s.data.map Char.toLower)

/-- Embeds get_search_url (src/main.py:68-94): a ValueError becomes an
error value, which main and its callers leave uncaught. -/
def get_search_url (cfg : Config) : Except String String :=
  let base_url := "https://servizi.apss.tn.it/ricmedico/listamedici.php"
  let search_mode := toLowerStr cfg.search_mode
  if search_mode = "ambito" then
    if cfg.ambito_id = "" then
      Except.error "AMBITO_ID required when SEARCH_MODE=ambito"
    else
      Except.ok (base_url ++ "?tipoRicerca=ambito&tipoMedico=MMG&ambito="
        ++ cfg.ambito_id)
  else if search_mode = "comune" then
    if cfg.comune_code = "" then
      Except.error "COMUNE_CODE required when SEARCH_MODE=comune"
    else
      Except.ok (base_url ++ "?tipoMedico=MMG&tipoRicerca=comune&comune="
        ++ cfg.comune_code ++ "&Ricerca=ricerca")
  else
    Except.error ("Invalid SEARCH_MODE: " ++ search_mode)

/-- The state file as main observes it: none when the file does not exist,
some none when it exists but json.load raises JSONDecodeError, some (some s)
when it parses to s. -/
abbrev StateFile := Option (Option State)

/-- Embeds load_state (src/main.py:22-39): a missing file and an unparsable
file both fall back to the empty state. -/
def load_state (stateFile : StateFile) : State :=
  match stateFile with
  | some (some st) => st
  | some none => { doctors := [], location_cache := [] }
  | none => { doctors := [], location_cache := [] }

/-- How a run of main terminates: a return statement with an exit code, or an
exception propagating out of main (the process then exits nonzero through the
traceback; nothing after the raising statement runs). -/
inductive RunResult where
  | exitCode (code : Int)
  | exception
deriving DecidableEq

/-- Observable outcome of a run: the termination mode, the state written by
save_state when it was reached, the change-set handed to post_to_telegram
when it was called, and the ids whose detail page was fetched. -/
structure RunOutcome where
  result : RunResult
  saved : Option State
  notifyAttempt : Option ChangeSet
  fetched : List String
deriving DecidableEq

/-- Embeds main (src/main.py:412-484).  scrapeResult is none when
scrape_doctor_list raises (HTTP or table-structure failure) and some ds when
it returns the listing ds; notifyOk tells whether the Telegram delivery
inside post_to_telegram succeeds; there is no try/except around the call at
src/main.py:475, so a delivery failure propagates and skips save_state.  The
steady branch persists the dict that detect_changes maintained for
current_ids, which coincides with the source's rebuild over the (by then
mutated) record objects of current_doctors. -/
def main (cfg : Config) (stateFile : StateFile) (scrapeResult : Option (List Doctor))
    (fetch : String → DetailPage) (now : Int) (notifyOk : Bool) : RunOutcome :=
  if cfg.bot_token = "" ∨ cfg.channel_id = "" ∨ cfg.search_mode = "" then
    { result := RunResult.exitCode 1, saved := none
      notifyAttempt := none, fetched := [] }
  else
    match get_search_url cfg with
    | Except.error _ =>
      { result := RunResult.exception, saved := none
        notifyAttempt := none, fetched := [] }
    | Except.ok _ =>
      let is_first_run := stateFile.isNone
      let state := load_state stateFile
      match scrapeResult with
      | none =>
        { result := RunResult.exception, saved := none
          notifyAttempt := none, fetched := [] }
      | some current_doctors =>
        if current_doctors.isEmpty then
          { result := RunResult.exitCode 1, saved := none
            notifyAttempt := none, fetched := [] }
        else if is_first_run then
          let new_state : State :=
            { doctors := dictOfList current_doctors, location_cache := [] }
          { result := RunResult.exitCode 0, saved := some new_state
            notifyAttempt := none, fetched := [] }
        else
          let location_cache := state.location_cache
          let r := detect_changes current_doctors state location_cache fetch
            cfg.cache_days now
          let total_changes := r.changes.added.length + r.changes.removed.length
            + r.changes.changed.length
          let new_state : State :=
            { doctors := r.current_ids
              location_cache := r.changes.location_cache }
          if total_changes > 0 then
            if notifyOk then
              { result := RunResult.exitCode 0, saved := some new_state
                notifyAttempt := some r.changes, fetched := r.fetched }
            else
              { result := RunResult.exception, saved := none
                notifyAttempt := some r.changes, fetched := r.fetched }
          else
            { result := RunResult.exitCode 0, saved := some new_state
              notifyAttempt := none, fetched := r.fetched }

/-- A sample doctor record used by the concrete instantiations below. -/
def docA : Doctor :=
  { id := "A", first_name := "Anna", last_name := "Rossi"
    availability := "Disponibile" }

/-- The sample doctor A after an availability change. -/
def docA2 : Doctor :=
  { docA with availability := "Non disponibile" }

/-- A second sample doctor record. -/
def docB : Doctor :=
  { id := "B", first_name := "Bruno", last_name := "Verdi"
    availability := "Disponibile" }

/-- A sample persisted state holding only doctor A. -/
def stA : State :=
  { doctors := [("A", docA)], location_cache := [] }

/-- A sample location cache holding an entry for doctor A. -/
def cacheA : Dict CacheEntry :=
  [("A", { locations := ["ARCO"], timestamp := 0 })]

/-- A sample configuration that passes all of main's validation. -/
def cfgOk : Config :=
  { bot_token := "t", channel_id := "c", search_mode := "ambito"
    ambito_id := "9", comune_code := "", cache_days := 7 }

/-- First-some choice on options (used to state lookups over appended dicts). -/
def oor {α : Type} : Option α → Option α → Option α
  | some a, _ => some a
  | none, b => b

/-- The projection of a dict entry that the in-place locations writes leave
untouched: key, record id, record availability. -/
def projKIA (kv : String × Doctor) : String × String × String :=
  (kv.1, kv.2.id, kv.2.availability)

/-- The changed test of the third loop, as a predicate on a current item
against a previous dict (src/main.py:293-295). -/
def availabilityDiffers (previous_ids : Dict Doctor) (kv : String × Doctor) :
    Bool :=
  match dget previous_ids kv.1 with
  | some p => kv.2.availability != p.availability
  | none => false

/-- Whether an id is present in both dicts with differing availability. -/
def availabilityChangedAt (cur previous_ids : Dict Doctor) (i : String) : Bool :=
  match dget cur i, dget previous_ids i with
  | some c, some p => c.availability != p.availability
  | _, _ => false

section BasicLemmas

@[simp] theorem withLocations_id (d : Doctor) (ls : List String) :
    (withLocations d ls).id = d.id := rfl

@[simp] theorem withLocations_availability (d : Doctor) (ls : List String) :
    (withLocations d ls).availability = d.availability := rfl

@[simp] theorem withLocations_locations (d : Doctor) (ls : List String) :
    (withLocations d ls).locations = some ls := rfl

theorem dget_dset {α : Type} (d : Dict α) (k : String) (v : α) (k' : String) :
    dget (dset d k v) k' = if k = k' then some v else dget d k' := by
  induction d with
  | nil => rfl
  | cons kv rest ih =>
    obtain ⟨k₀, v₀⟩ := kv
    by_cases h : k₀ = k
    · subst h
      by_cases h' : k₀ = k'
      · subst h'
        simp [dset, dget]
      · simp [dset, dget, h']
    · by_cases h' : k₀ = k'
      · subst h'
        simp only [dset, if_neg h, dget, if_pos rfl]
        rw [if_neg (fun hh : k = k₀ => h hh.symm)]
        simp [dget]
      · simp [dset, dget, h, h', ih]

theorem dset_absent {α : Type} (d : Dict α) (k : String) (v : α)
    (h : dget d k = none) : dset d k v = d ++ [(k, v)] := by
  induction d with
  | nil => rfl
  | cons kv rest ih =>
    obtain ⟨k₀, v₀⟩ := kv
    by_cases hk : k₀ = k
    · subst hk
      simp [dget] at h
    · simp only [dget, if_neg hk] at h
      simp [dset, hk, ih h]

theorem dget_append {α : Type} (d d' : Dict α) (k : String) :
    dget (d ++ d') k = oor (dget d k) (dget d' k) := by
  induction d with
  | nil => simp [dget, oor]
  | cons kv rest ih =>
    obtain ⟨k₀, v₀⟩ := kv
    by_cases hk : k₀ = k <;> simp [dget, hk, ih, oor]

theorem dget_eq_none_iff {α : Type} (d : Dict α) (k : String) :
    dget d k = none ↔ k ∉ dkeys d := by
  induction d with
  | nil => simp [dget, dkeys]
  | cons kv rest ih =>
    obtain ⟨k₀, v₀⟩ := kv
    by_cases hk : k₀ = k
    · subst hk
      simp [dget, dkeys]
    · simp [dget, hk, dkeys, ih, fun hh : k = k₀ => hk hh.symm]
      intro h
      exact fun hh => hk hh.symm

theorem dmem_iff {α : Type} (d : Dict α) (k : String) :
    dmem d k = true ↔ k ∈ dkeys d := by
  rw [dmem, Option.isSome_iff_ne_none]
  constructor
  · intro h
    by_contra hmem
    exact h ((dget_eq_none_iff d k).mpr hmem)
  · intro h hn
    exact ((dget_eq_none_iff d k).mp hn) h

theorem dmem_eq_of_dkeys_eq {α β : Type} (d₁ : Dict α) (d₂ : Dict β)
    (h : dkeys d₁ = dkeys d₂) (k : String) : dmem d₁ k = dmem d₂ k := by
  by_cases hm : k ∈ dkeys d₁
  · rw [(dmem_iff d₁ k).mpr hm, ((dmem_iff d₂ k).mpr (h ▸ hm)).symm]
  · have h₁ : dmem d₁ k ≠ true := fun hh => hm ((dmem_iff d₁ k).mp hh)
    have h₂ : dmem d₂ k ≠ true := fun hh => hm (h ▸ (dmem_iff d₂ k).mp hh)
    simp only [Bool.not_eq_true] at h₁ h₂
    rw [h₁, h₂]

theorem dget_of_mem_nodup {α : Type} (d : Dict α) (h : (dkeys d).Nodup)
    (kv : String × α) (hm : kv ∈ d) : dget d kv.1 = some kv.2 := by
  induction d with
  | nil => cases hm
  | cons kv₀ rest ih =>
    obtain ⟨k₀, v₀⟩ := kv₀
    rcases List.mem_cons.mp hm with hm | hm
    · subst hm
      simp [dget]
    · have hk : k₀ ≠ kv.1 := by
        intro hh
        have : kv.1 ∈ dkeys rest := List.mem_map_of_mem _ hm
        rw [dkeys] at h
        exact (List.nodup_cons.mp h).1 (hh ▸ this)
      simp only [dget, if_neg hk]
      exact ih (List.nodup_cons.mp h).2 hm

theorem dget_mem {α : Type} (d : Dict α) (k : String) (v : α)
    (h : dget d k = some v) : (k, v) ∈ d := by
  induction d with
  | nil => simp [dget] at h
  | cons kv₀ rest ih =>
    obtain ⟨k₀, v₀⟩ := kv₀
    by_cases hk : k₀ = k
    · subst hk
      have h' : v₀ = v := by simpa [dget] using h
      subst h'
      exact List.mem_cons_self _ _
    · simp only [dget, if_neg hk] at h
      exact List.mem_cons_of_mem _ (ih h)

end BasicLemmas

section ListHelpers

theorem lfilter_map {α β : Type} (f : α → β) (p : β → Bool) (l : List α) :
    (l.map f).filter p = (l.filter (fun a => p (f a))).map f := by
  induction l with
  | nil => rfl
  | cons a l ih =>
    by_cases h : p (f a) = true <;> simp [h, ih]

theorem lfilter_congr {α : Type} (p q : α → Bool) (l : List α)
    (h : ∀ a ∈ l, p a = q a) : l.filter p = l.filter q := by
  induction l with
  | nil => rfl
  | cons a l ih =>
    have ha := h a (List.mem_cons_self _ _)
    have hl := ih (fun a' ha' => h a' (List.mem_cons_of_mem _ ha'))
    by_cases hp : p a = true
    · rw [List.filter_cons_of_pos hp, List.filter_cons_of_pos (ha ▸ hp), hl]
    · rw [List.filter_cons_of_neg hp, List.filter_cons_of_neg (fun hq => hp (ha ▸ hq)), hl]

theorem lmap_congr {α β : Type} (f g : α → β) (l : List α)
    (h : ∀ a ∈ l, f a = g a) : l.map f = l.map g := by
  induction l with
  | nil => rfl
  | cons a l ih =>
    simp only [List.map_cons, h a (List.mem_cons_self _ _),
      ih (fun a' ha' => h a' (List.mem_cons_of_mem _ ha'))]

theorem lfilterMap_if {α β : Type} (p : α → Bool) (g : α → β) (l : List α) :
    l.filterMap (fun a => if p a then none else some (g a))
      = (l.filter (fun a => !(p a))).map g := by
  induction l with
  | nil => rfl
  | cons a l ih =>
    by_cases h : p a = true <;> simp [h, ih]

theorem lfilter_eq_nil {α : Type} (p : α → Bool) (l : List α)
    (h : ∀ a ∈ l, p a = false) : l.filter p = [] := by
  induction l with
  | nil => rfl
  | cons a l ih =>
    rw [List.filter_cons_of_neg (by simp [h a (List.mem_cons_self _ _)]),
      ih (fun a' ha' => h a' (List.mem_cons_of_mem _ ha'))]

end ListHelpers

section DictOfListLemmas

theorem foldl_dset_append (ds : List Doctor) :
    ∀ acc : Dict Doctor, (doctorIds ds).Nodup →
      (∀ d ∈ ds, dget acc d.id = none) →
      ds.foldl (fun a d => dset a d.id d) acc
        = acc ++ ds.map (fun d => (d.id, d)) := by
  induction ds with
  | nil =>
    intro acc _ _
    simp
  | cons d ds ih =>
    intro acc hnd hab
    have hd : dget acc d.id = none := hab d (List.mem_cons_self _ _)
    have hnd' : (doctorIds ds).Nodup := by
      simp only [doctorIds, List.map_cons] at hnd
      exact (List.nodup_cons.mp hnd).2
    have hdd : ∀ d' ∈ ds, d.id ≠ d'.id := by
      intro d' hd' he
      simp only [doctorIds, List.map_cons] at hnd
      exact (List.nodup_cons.mp hnd).1 (he ▸ List.mem_map_of_mem _ hd')
    have hab' : ∀ d' ∈ ds, dget (acc ++ [(d.id, d)]) d'.id = none := by
      intro d' hd'
      rw [dget_append, hab d' (List.mem_cons_of_mem _ hd')]
      simp only [oor, dget]
      rw [if_neg (hdd d' hd')]
    calc (d :: ds).foldl (fun a x => dset a x.id x) acc
        = ds.foldl (fun a x => dset a x.id x) (dset acc d.id d) := by
          simp
      _ = ds.foldl (fun a x => dset a x.id x) (acc ++ [(d.id, d)]) := by
          rw [dset_absent acc d.id d hd]
      _ = (acc ++ [(d.id, d)]) ++ ds.map (fun x => (x.id, x)) := ih _ hnd' hab'
      _ = acc ++ (d :: ds).map (fun x => (x.id, x)) := by simp

theorem dictOfList_eq (ds : List Doctor) (h : (doctorIds ds).Nodup) :
    dictOfList ds = ds.map (fun d => (d.id, d)) := by
  have := foldl_dset_append ds [] h (fun d _ => rfl)
  simpa [dictOfList] using this

theorem wf_dset (d : Dict Doctor) (k : String) (v : Doctor)
    (h : wfDict d) (hv : v.id = k) : wfDict (dset d k v) := by
  induction d with
  | nil =>
    intro kv hkv
    rcases List.mem_cons.mp hkv with h' | h'
    · subst h'; exact hv
    · cases h'
  | cons kv₀ rest ih =>
    obtain ⟨k₀, v₀⟩ := kv₀
    have hh : wfDict rest := fun kv hkv => h kv (List.mem_cons_of_mem _ hkv)
    by_cases hk : k₀ = k
    · subst hk
      intro kv hkv
      simp only [dset, if_pos rfl] at hkv
      rcases List.mem_cons.mp hkv with h' | h'
      · subst h'; exact hv
      · exact h kv (List.mem_cons_of_mem _ h')
    · intro kv hkv
      simp only [dset, if_neg hk] at hkv
      rcases List.mem_cons.mp hkv with h' | h'
      · subst h'; exact h _ (List.mem_cons_self _ _)
      · exact ih hh kv h'

theorem dkeys_dset {α : Type} (d : Dict α) (k : String) (v : α) :
    dkeys (dset d k v) = if k ∈ dkeys d then dkeys d else dkeys d ++ [k] := by
  induction d with
  | nil => simp [dset, dkeys]
  | cons kv₀ rest ih =>
    obtain ⟨k₀, v₀⟩ := kv₀
    by_cases hk : k₀ = k
    · subst hk
      simp [dset, dkeys]
    · have hne : ¬k = k₀ := fun hh => hk hh.symm
      simp only [dkeys] at ih
      simp only [dset, if_neg hk, dkeys, List.map_cons, List.mem_cons]
      rw [ih]
      by_cases hm : k ∈ List.map (fun kv : String × α => kv.1) rest
      · simp [hm]
      · simp [hm, hne]

theorem wfDict_dictOfList (ds : List Doctor) : wfDict (dictOfList ds) := by
  have aux : ∀ acc : Dict Doctor, wfDict acc →
      wfDict (ds.foldl (fun a d => dset a d.id d) acc) := by
    induction ds with
    | nil => intro acc h; simpa using h
    | cons d ds ih =>
      intro acc h
      simp only [List.foldl_cons]
      exact ih _ (wf_dset acc d.id d h rfl)
  exact aux [] (fun kv hkv => by cases hkv)

theorem dkeys_dictOfList_nodup (ds : List Doctor) :
    (dkeys (dictOfList ds)).Nodup := by
  have aux : ∀ acc : Dict Doctor, (dkeys acc).Nodup →
      (dkeys (ds.foldl (fun a d => dset a d.id d) acc)).Nodup := by
    induction ds with
    | nil => intro acc h; simpa using h
    | cons d ds ih =>
      intro acc h
      simp only [List.foldl_cons]
      refine ih _ ?_
      rw [dkeys_dset]
      by_cases hm : d.id ∈ dkeys acc
      · rw [if_pos hm]; exact h
      · rw [if_neg hm]
        simp [List.nodup_append, h, hm]
  exact aux [] (by simp [dkeys])

theorem dictOfList_vals (d : Dict Doctor) (hw : wfDict d)
    (hn : (dkeys d).Nodup) :
    dictOfList (d.map (fun kv => kv.2)) = d := by
  have hids : doctorIds (d.map (fun kv => kv.2)) = dkeys d := by
    simp only [doctorIds, dkeys, List.map_map]
    exact lmap_congr _ _ d (fun kv hkv => hw kv hkv)
  rw [dictOfList_eq _ (hids ▸ hn)]
  rw [List.map_map]
  have : ∀ kv ∈ d, ((fun x : Doctor => (x.id, x)) ∘ fun kv : String × Doctor => kv.2) kv
      = id kv := by
    intro kv hkv
    simp only [Function.comp, id]
    rw [hw kv hkv]
  rw [lmap_congr _ _ d this, List.map_id]

end DictOfListLemmas

section CacheLemmas

theorem gdl_none (doctor_id : String) (page : DetailPage)
    (cache : Dict CacheEntry) (days now : Int)
    (h : dget cache doctor_id = none) :
    get_doctor_locations doctor_id page cache days now
      = { locations := scrape_doctor_locations page
          cache := dset cache doctor_id
            { locations := scrape_doctor_locations page, timestamp := now }
          fetched := true } := by
  simp only [get_doctor_locations, h]

theorem gdl_hit (doctor_id : String) (page : DetailPage)
    (cache : Dict CacheEntry) (days now : Int) (c : CacheEntry)
    (h : dget cache doctor_id = some c)
    (hf : now - c.timestamp < days * 24 * 3600) :
    get_doctor_locations doctor_id page cache days now
      = { locations := c.locations, cache := cache, fetched := false } := by
  simp only [get_doctor_locations, h, if_pos hf]

theorem gdl_expired (doctor_id : String) (page : DetailPage)
    (cache : Dict CacheEntry) (days now : Int) (c : CacheEntry)
    (h : dget cache doctor_id = some c)
    (hf : ¬now - c.timestamp < days * 24 * 3600) :
    get_doctor_locations doctor_id page cache days now
      = { locations := scrape_doctor_locations page
          cache := dset cache doctor_id
            { locations := scrape_doctor_locations page, timestamp := now }
          fetched := true } := by
  simp only [get_doctor_locations, h, if_neg hf]

theorem gdl_cache_stable (doctor_id : String) (page : DetailPage)
    (cache : Dict CacheEntry) (days now : Int) (k : String)
    (hk : k ≠ doctor_id) :
    dget (get_doctor_locations doctor_id page cache days now).cache k
      = dget cache k := by
  cases h : dget cache doctor_id with
  | none =>
    rw [gdl_none doctor_id page cache days now h]
    simp only [dget_dset]
    rw [if_neg (fun hh => hk hh.symm)]
  | some c =>
    by_cases hf : now - c.timestamp < days * 24 * 3600
    · rw [gdl_hit doctor_id page cache days now c h hf]
    · rw [gdl_expired doctor_id page cache days now c h hf]
      simp only [dget_dset]
      rw [if_neg (fun hh => hk hh.symm)]

theorem gdl_self (doctor_id : String) (page : DetailPage)
    (cache : Dict CacheEntry) (days now : Int) :
    ∃ e, dget (get_doctor_locations doctor_id page cache days now).cache doctor_id
        = some e
      ∧ (get_doctor_locations doctor_id page cache days now).locations
        = e.locations := by
  cases h : dget cache doctor_id with
  | none =>
    refine ⟨{ locations := scrape_doctor_locations page, timestamp := now }, ?_, ?_⟩
    · rw [gdl_none doctor_id page cache days now h]
      simp [dget_dset]
    · rw [gdl_none doctor_id page cache days now h]
  | some c =>
    by_cases hf : now - c.timestamp < days * 24 * 3600
    · exact ⟨c, by rw [gdl_hit doctor_id page cache days now c h hf]; exact h,
        by rw [gdl_hit doctor_id page cache days now c h hf]⟩
    · refine ⟨{ locations := scrape_doctor_locations page, timestamp := now }, ?_, ?_⟩
      · rw [gdl_expired doctor_id page cache days now c h hf]
        simp [dget_dset]
      · rw [gdl_expired doctor_id page cache days now c h hf]

end CacheLemmas

section ProjLemmas

theorem dget_map_keyfix {α β : Type} (f : String × α → β)
    (items : List (String × α)) (k : String) :
    dget (items.map (fun kv => (kv.1, f kv))) k
      = (dget items k).map (fun v => f (k, v)) := by
  induction items with
  | nil => rfl
  | cons kv rest ih =>
    obtain ⟨k₀, v₀⟩ := kv
    by_cases hk : k₀ = k
    · subst hk
      simp [dget]
    · simp [dget, hk, ih]

theorem dkeys_of_proj_eq (items₁ items₂ : Dict Doctor)
    (h : items₁.map projKIA = items₂.map projKIA) :
    dkeys items₁ = dkeys items₂ := by
  have h₁ : dkeys items₁ = (items₁.map projKIA).map (fun t => t.1) := by
    simp [dkeys, projKIA, List.map_map, Function.comp]
  have h₂ : dkeys items₂ = (items₂.map projKIA).map (fun t => t.1) := by
    simp [dkeys, projKIA, List.map_map, Function.comp]
  rw [h₁, h₂, h]

theorem wf_of_proj_eq (items₁ : Dict Doctor) :
    ∀ items₂ : Dict Doctor, items₁.map projKIA = items₂.map projKIA →
      wfDict items₂ → wfDict items₁ := by
  induction items₁ with
  | nil => intro items₂ _ _ kv hkv; cases hkv
  | cons a l ih =>
    intro items₂ h hw
    cases items₂ with
    | nil => simp at h
    | cons b l₂ =>
      simp only [List.map_cons, List.cons.injEq] at h
      have hab : a.1 = b.1 ∧ a.2.id = b.2.id := by
        have := h.1
        simp only [projKIA, Prod.mk.injEq] at this
        exact ⟨this.1, this.2.1⟩
      intro kv hkv
      rcases List.mem_cons.mp hkv with hkv | hkv
      · subst hkv
        rw [hab.2, hab.1]
        exact hw b (List.mem_cons_self _ _)
      · exact ih l₂ h.2 (fun kv' hkv' => hw kv' (List.mem_cons_of_mem _ hkv')) kv hkv

theorem filter_map_id_of_proj_eq (p : String × Doctor → Bool)
    (hp : ∀ a b : String × Doctor, projKIA a = projKIA b → p a = p b)
    (items₁ : Dict Doctor) :
    ∀ items₂ : Dict Doctor, items₁.map projKIA = items₂.map projKIA →
      (items₁.filter p).map (fun kv => kv.2.id)
        = (items₂.filter p).map (fun kv => kv.2.id) := by
  induction items₁ with
  | nil =>
    intro items₂ h
    cases items₂ with
    | nil => rfl
    | cons b l₂ => simp at h
  | cons a l ih =>
    intro items₂ h
    cases items₂ with
    | nil => simp at h
    | cons b l₂ =>
      simp only [List.map_cons, List.cons.injEq] at h
      have hpab : p a = p b := hp a b h.1
      have hid : a.2.id = b.2.id := by
        have := h.1
        simp only [projKIA, Prod.mk.injEq] at this
        exact this.2.1
      by_cases hb : p a = true
      · rw [List.filter_cons_of_pos hb, List.filter_cons_of_pos (hpab ▸ hb)]
        simp only [List.map_cons, hid, ih l₂ h.2]
      · rw [List.filter_cons_of_neg hb, List.filter_cons_of_neg (fun hh => hb (hpab ▸ hh))]
        exact ih l₂ h.2

theorem availabilityDiffers_congr (prev₁ prev₂ : Dict Doctor)
    (kv : String × Doctor)
    (h : (dget prev₁ kv.1).map (fun d => d.availability)
      = (dget prev₂ kv.1).map (fun d => d.availability)) :
    availabilityDiffers prev₁ kv = availabilityDiffers prev₂ kv := by
  unfold availabilityDiffers
  cases h₁ : dget prev₁ kv.1 with
  | none =>
    cases h₂ : dget prev₂ kv.1 with
    | none => rfl
    | some q => rw [h₁, h₂] at h; simp at h
  | some p =>
    cases h₂ : dget prev₂ kv.1 with
    | none => rw [h₁, h₂] at h; simp at h
    | some q =>
      rw [h₁, h₂] at h
      have hq : p.availability = q.availability := by simpa using h
      simp only [hq]

end ProjLemmas

section AddedLoopLemmas

theorem addedLoop_added_ids (previous_ids : Dict Doctor)
    (fetch : String → DetailPage) (days now : Int) (items : Dict Doctor) :
    ∀ cache : Dict CacheEntry,
      (addedLoop previous_ids fetch days now items cache).added.map (fun x => x.id)
        = (items.filter (fun kv => !(dmem previous_ids kv.1))).map
            (fun kv => kv.2.id) := by
  induction items with
  | nil => intro cache; rfl
  | cons kv rest ih =>
    intro cache
    obtain ⟨doc_id, doctor⟩ := kv
    cases hb : dmem previous_ids doc_id <;> simp [addedLoop, hb, ih]

theorem addedLoop_items_proj (previous_ids : Dict Doctor)
    (fetch : String → DetailPage) (days now : Int) (items : Dict Doctor) :
    ∀ cache : Dict CacheEntry,
      (addedLoop previous_ids fetch days now items cache).items.map projKIA
        = items.map projKIA := by
  induction items with
  | nil => intro cache; rfl
  | cons kv rest ih =>
    intro cache
    obtain ⟨doc_id, doctor⟩ := kv
    cases hb : dmem previous_ids doc_id <;> simp [addedLoop, hb, ih, projKIA]

theorem addedLoop_cache_stable (previous_ids : Dict Doctor)
    (fetch : String → DetailPage) (days now : Int) (items : Dict Doctor) :
    ∀ (cache : Dict CacheEntry) (k : String),
      k ∉ (addedLoop previous_ids fetch days now items cache).added.map
          (fun x => x.id) →
      dget (addedLoop previous_ids fetch days now items cache).cache k
        = dget cache k := by
  induction items with
  | nil => intro cache k _; rfl
  | cons kv rest ih =>
    intro cache k hk
    obtain ⟨doc_id, doctor⟩ := kv
    cases hb : dmem previous_ids doc_id
    · simp only [addedLoop, hb, Bool.false_eq_true, if_false] at hk ⊢
      simp only [List.map_cons, List.mem_cons, not_or] at hk
      have hid : k ≠ doctor.id := by
        intro hh
        exact hk.1 (by simp [hh])
      rw [ih _ k hk.2]
      exact gdl_cache_stable doctor.id _ cache days now k hid
    · simp only [addedLoop, hb, if_true] at hk ⊢
      exact ih _ k hk

theorem addedLoop_fetched_sub (previous_ids : Dict Doctor)
    (fetch : String → DetailPage) (days now : Int) (items : Dict Doctor) :
    ∀ (cache : Dict CacheEntry) (k : String),
      k ∈ (addedLoop previous_ids fetch days now items cache).fetched →
      k ∈ (addedLoop previous_ids fetch days now items cache).added.map
          (fun x => x.id) := by
  induction items with
  | nil => intro cache k h; cases h
  | cons kv rest ih =>
    intro cache k hk
    obtain ⟨doc_id, doctor⟩ := kv
    cases hb : dmem previous_ids doc_id
    · simp only [addedLoop, hb, Bool.false_eq_true, if_false] at hk ⊢
      simp only [List.map_cons, List.mem_cons]
      cases hf : (get_doctor_locations doctor.id
          (fetch (get_doctor_detail_url doctor.id)) cache days now).fetched
      · rw [hf] at hk
        simp only [if_false, Bool.false_eq_true] at hk
        exact Or.inr (ih _ k hk)
      · rw [hf] at hk
        simp only [if_true] at hk
        rcases List.mem_cons.mp hk with hk | hk
        · exact Or.inl (by simp [hk])
        · exact Or.inr (ih _ k hk)
    · simp only [addedLoop, hb, if_true] at hk ⊢
      exact ih _ k hk

theorem addedLoop_alias (previous_ids : Dict Doctor)
    (fetch : String → DetailPage) (days now : Int) (items : Dict Doctor) :
    ∀ cache : Dict CacheEntry, wfDict items → (dkeys items).Nodup →
      ∀ x ∈ (addedLoop previous_ids fetch days now items cache).added,
        ∃ e, dget (addedLoop previous_ids fetch days now items cache).cache x.id
            = some e
          ∧ x.locations = some e.locations := by
  induction items with
  | nil => intro cache _ _ x hx; cases hx
  | cons kv rest ih =>
    intro cache hwf hnd x hx
    obtain ⟨doc_id, doctor⟩ := kv
    have hwf' : wfDict rest := fun kv' hkv' => hwf kv' (List.mem_cons_of_mem _ hkv')
    have hhead : doctor.id = doc_id := hwf _ (List.mem_cons_self _ _)
    have hnd' : (dkeys rest).Nodup := by
      simp only [dkeys, List.map_cons] at hnd
      exact (List.nodup_cons.mp hnd).2
    have hnotin : doc_id ∉ dkeys rest := by
      simp only [dkeys, List.map_cons] at hnd
      exact (List.nodup_cons.mp hnd).1
    cases hb : dmem previous_ids doc_id
    · simp only [addedLoop, hb, Bool.false_eq_true, if_false] at hx ⊢
      rcases List.mem_cons.mp hx with hx | hx
      · subst hx
        simp only [withLocations_id, withLocations_locations]
        obtain ⟨e, he, hl⟩ := gdl_self doctor.id
          (fetch (get_doctor_detail_url doctor.id)) cache days now
        refine ⟨e, ?_, by simp [hl]⟩
        have hstable : doctor.id ∉
            (addedLoop previous_ids fetch days now rest
              (get_doctor_locations doctor.id
                (fetch (get_doctor_detail_url doctor.id)) cache days now).cache).added.map
              (fun y => y.id) := by
          rw [addedLoop_added_ids]
          intro hmem
          rcases List.mem_map.mp hmem with ⟨kv', hkv', hid⟩
          have hkv'' := List.mem_filter.mp hkv'
          have : kv'.1 = doc_id := by
            rw [← hwf' kv' hkv''.1, hid, hhead]
          exact hnotin (this ▸ List.mem_map_of_mem _ hkv''.1)
        rw [addedLoop_cache_stable previous_ids fetch days now rest _ _ hstable]
        simpa using he
      · exact ih _ hwf' hnd' x hx
    · simp only [addedLoop, hb, if_true] at hx ⊢
      exact ih _ hwf' hnd' x hx

theorem addedLoop_all_fetch (previous_ids : Dict Doctor)
    (fetch : String → DetailPage) (days now : Int) (items : Dict Doctor) :
    ∀ cache : Dict CacheEntry,
      (∀ kv ∈ items, dmem previous_ids (kv : String × Doctor).1 = false) →
      (items.map (fun kv => kv.2.id)).Nodup →
      (∀ kv ∈ items, dget cache (kv : String × Doctor).2.id = none) →
      (addedLoop previous_ids fetch days now items cache).fetched
        = items.map (fun kv => kv.2.id) := by
  induction items with
  | nil => intro cache _ _ _; rfl
  | cons kv rest ih =>
    intro cache hprev hnd hcache
    obtain ⟨doc_id, doctor⟩ := kv
    have hb := hprev _ (List.mem_cons_self _ _)
    have hmiss := hcache _ (List.mem_cons_self _ _)
    simp only at hb hmiss
    have hnotin : doctor.id ∉ rest.map (fun kv : String × Doctor => kv.2.id) := by
      simp only [List.map_cons] at hnd
      exact (List.nodup_cons.mp hnd).1
    simp only [addedLoop, hb, Bool.false_eq_true, if_false]
    rw [gdl_none doctor.id (fetch (get_doctor_detail_url doctor.id)) cache days now hmiss]
    simp only [if_true]
    rw [ih _ (fun kv' hkv' => hprev kv' (List.mem_cons_of_mem _ hkv'))
      (by simp only [List.map_cons] at hnd; exact (List.nodup_cons.mp hnd).2)
      ?_]
    · simp
    · intro kv' hkv'
      rw [dget_dset]
      rw [if_neg (fun hh => hnotin (by rw [hh]; exact List.mem_map_of_mem _ hkv'))]
      exact hcache kv' (List.mem_cons_of_mem _ hkv')

end AddedLoopLemmas

section RemovedLoopLemmas

theorem removedLoop_fst (current_ids : Dict Doctor)
    (location_cache : Dict CacheEntry) (items : Dict Doctor) :
    (removedLoop current_ids location_cache items).1
      = items.filterMap (fun kv =>
          if dmem current_ids kv.1 then none
          else some (withLocations kv.2 (cachedLocations location_cache kv.1))) := by
  induction items with
  | nil => rfl
  | cons kv rest ih =>
    obtain ⟨doc_id, doctor⟩ := kv
    cases hb : dmem current_ids doc_id <;>
      simp [removedLoop, hb, ih, List.filterMap_cons]

theorem removedLoop_snd (current_ids : Dict Doctor)
    (location_cache : Dict CacheEntry) (items : Dict Doctor) :
    (removedLoop current_ids location_cache items).2
      = items.map (fun kv => (kv.1,
          if dmem current_ids kv.1 then kv.2
          else withLocations kv.2 (cachedLocations location_cache kv.1))) := by
  induction items with
  | nil => rfl
  | cons kv rest ih =>
    obtain ⟨doc_id, doctor⟩ := kv
    cases hb : dmem current_ids doc_id <;> simp [removedLoop, hb, ih]

theorem removedLoop_dkeys (current_ids : Dict Doctor)
    (location_cache : Dict CacheEntry) (items : Dict Doctor) :
    dkeys (removedLoop current_ids location_cache items).2 = dkeys items := by
  rw [removedLoop_snd]
  simp [dkeys, List.map_map, Function.comp]

theorem removedLoop_avail (current_ids : Dict Doctor)
    (location_cache : Dict CacheEntry) (items : Dict Doctor) (k : String) :
    (dget (removedLoop current_ids location_cache items).2 k).map
        (fun d => d.availability)
      = (dget items k).map (fun d => d.availability) := by
  rw [removedLoop_snd]
  rw [dget_map_keyfix (fun kv =>
    if dmem current_ids kv.1 then kv.2
    else withLocations kv.2 (cachedLocations location_cache kv.1))
    items k]
  cases h : dget items k with
  | none => rfl
  | some v =>
    simp only [Option.map]
    cases hb : dmem current_ids k <;> simp [hb]

end RemovedLoopLemmas

section ChangedLoopLemmas

theorem changedLoop_changed_ids (previous_ids : Dict Doctor)
    (fetch : String → DetailPage) (days now : Int) (items : Dict Doctor) :
    ∀ cache : Dict CacheEntry,
      (changedLoop previous_ids fetch days now items cache).changed.map
          (fun t => t.1.id)
        = (items.filter (availabilityDiffers previous_ids)).map
            (fun kv => kv.2.id) := by
  induction items with
  | nil => intro cache; rfl
  | cons kv rest ih =>
    intro cache
    obtain ⟨doc_id, current_doctor⟩ := kv
    cases hg : dget previous_ids doc_id with
    | none =>
      have hpred : availabilityDiffers previous_ids (doc_id, current_doctor) = false := by
        simp [availabilityDiffers, hg]
      simp [changedLoop, hg, hpred, ih]
    | some previous_doctor =>
      by_cases ha : current_doctor.availability = previous_doctor.availability
      · have hpred : availabilityDiffers previous_ids (doc_id, current_doctor) = false := by
          simp [availabilityDiffers, hg, ha]
        simp only [changedLoop, hg]
        rw [if_neg (not_not_intro ha)]
        simp [hpred, ih]
      · have hpred : availabilityDiffers previous_ids (doc_id, current_doctor) = true := by
          simp [availabilityDiffers, hg, ha]
        simp only [changedLoop, hg]
        rw [if_pos ha]
        simp [hpred, ih]

theorem changedLoop_items_proj (previous_ids : Dict Doctor)
    (fetch : String → DetailPage) (days now : Int) (items : Dict Doctor) :
    ∀ cache : Dict CacheEntry,
      (changedLoop previous_ids fetch days now items cache).items.map projKIA
        = items.map projKIA := by
  induction items with
  | nil => intro cache; rfl
  | cons kv rest ih =>
    intro cache
    obtain ⟨doc_id, current_doctor⟩ := kv
    cases hg : dget previous_ids doc_id with
    | none => simp [changedLoop, hg, ih, projKIA]
    | some previous_doctor =>
      by_cases ha : current_doctor.availability = previous_doctor.availability
      · simp only [changedLoop, hg]
        rw [if_neg (not_not_intro ha)]
        simp [ih, projKIA]
      · simp only [changedLoop, hg]
        rw [if_pos ha]
        simp [ih, projKIA]

theorem changedLoop_cache_stable (previous_ids : Dict Doctor)
    (fetch : String → DetailPage) (days now : Int) (items : Dict Doctor) :
    ∀ (cache : Dict CacheEntry) (k : String),
      k ∉ (changedLoop previous_ids fetch days now items cache).changed.map
          (fun t => t.1.id) →
      dget (changedLoop previous_ids fetch days now items cache).cache k
        = dget cache k := by
  induction items with
  | nil => intro cache k _; rfl
  | cons kv rest ih =>
    intro cache k hk
    obtain ⟨doc_id, current_doctor⟩ := kv
    cases hg : dget previous_ids doc_id with
    | none =>
      simp only [changedLoop, hg] at hk ⊢
      exact ih _ k hk
    | some previous_doctor =>
      by_cases ha : current_doctor.availability = previous_doctor.availability
      · simp only [changedLoop, hg] at hk ⊢
        rw [if_neg (not_not_intro ha)] at hk ⊢
        exact ih _ k hk
      · simp only [changedLoop, hg] at hk ⊢
        rw [if_pos ha] at hk ⊢
        simp only [List.map_cons, List.mem_cons, not_or] at hk
        have hid : k ≠ current_doctor.id := by
          intro hh
          exact hk.1 (by simp [hh])
        rw [ih _ k hk.2]
        exact gdl_cache_stable current_doctor.id _ cache days now k hid

theorem changedLoop_fetched_sub (previous_ids : Dict Doctor)
    (fetch : String → DetailPage) (days now : Int) (items : Dict Doctor) :
    ∀ (cache : Dict CacheEntry) (k : String),
      k ∈ (changedLoop previous_ids fetch days now items cache).fetched →
      k ∈ (changedLoop previous_ids fetch days now items cache).changed.map
          (fun t => t.1.id) := by
  induction items with
  | nil => intro cache k h; cases h
  | cons kv rest ih =>
    intro cache k hk
    obtain ⟨doc_id, current_doctor⟩ := kv
    cases hg : dget previous_ids doc_id with
    | none =>
      simp only [changedLoop, hg] at hk ⊢
      exact ih _ k hk
    | some previous_doctor =>
      by_cases ha : current_doctor.availability = previous_doctor.availability
      · simp only [changedLoop, hg] at hk ⊢
        rw [if_neg (not_not_intro ha)] at hk ⊢
        exact ih _ k hk
      · simp only [changedLoop, hg] at hk ⊢
        rw [if_pos ha] at hk ⊢
        simp only [List.map_cons, List.mem_cons]
        cases hf : (get_doctor_locations current_doctor.id
            (fetch (get_doctor_detail_url current_doctor.id)) cache days now).fetched
        · rw [hf] at hk
          simp only [if_false, Bool.false_eq_true] at hk
          exact Or.inr (ih _ k hk)
        · rw [hf] at hk
          simp only [if_true] at hk
          rcases List.mem_cons.mp hk with hk | hk
          · exact Or.inl (by simp [hk])
          · exact Or.inr (ih _ k hk)

theorem changedLoop_alias (previous_ids : Dict Doctor)
    (fetch : String → DetailPage) (days now : Int) (items : Dict Doctor) :
    ∀ cache : Dict CacheEntry, wfDict items → (dkeys items).Nodup →
      ∀ t ∈ (changedLoop previous_ids fetch days now items cache).changed,
        ∃ e, dget (changedLoop previous_ids fetch days now items cache).cache
            (t : Doctor × String × String).1.id = some e
          ∧ t.1.locations = some e.locations := by
  induction items with
  | nil => intro cache _ _ t ht; cases ht
  | cons kv rest ih =>
    intro cache hwf hnd t ht
    obtain ⟨doc_id, current_doctor⟩ := kv
    have hwf' : wfDict rest := fun kv' hkv' => hwf kv' (List.mem_cons_of_mem _ hkv')
    have hhead : current_doctor.id = doc_id := hwf _ (List.mem_cons_self _ _)
    have hnd' : (dkeys rest).Nodup := by
      simp only [dkeys, List.map_cons] at hnd
      exact (List.nodup_cons.mp hnd).2
    have hnotin : doc_id ∉ dkeys rest := by
      simp only [dkeys, List.map_cons] at hnd
      exact (List.nodup_cons.mp hnd).1
    cases hg : dget previous_ids doc_id with
    | none =>
      simp only [changedLoop, hg] at ht ⊢
      exact ih _ hwf' hnd' t ht
    | some previous_doctor =>
      by_cases ha : current_doctor.availability = previous_doctor.availability
      · simp only [changedLoop, hg] at ht ⊢
        rw [if_neg (not_not_intro ha)] at ht ⊢
        exact ih _ hwf' hnd' t ht
      · simp only [changedLoop, hg] at ht ⊢
        rw [if_pos ha] at ht ⊢
        rcases List.mem_cons.mp ht with ht | ht
        · subst ht
          simp only [withLocations_id, withLocations_locations]
          obtain ⟨e, he, hl⟩ := gdl_self current_doctor.id
            (fetch (get_doctor_detail_url current_doctor.id)) cache days now
          refine ⟨e, ?_, by simp [hl]⟩
          have hstable : current_doctor.id ∉
              (changedLoop previous_ids fetch days now rest
                (get_doctor_locations current_doctor.id
                  (fetch (get_doctor_detail_url current_doctor.id)) cache days
                  now).cache).changed.map (fun y => y.1.id) := by
            rw [changedLoop_changed_ids]
            intro hmem
            rcases List.mem_map.mp hmem with ⟨kv', hkv', hid⟩
            have hkv'' := List.mem_filter.mp hkv'
            have hkk : kv'.1 = doc_id := by
              rw [← hwf' kv' hkv''.1, hid, hhead]
            exact hnotin (hkk ▸ List.mem_map_of_mem _ hkv''.1)
          rw [changedLoop_cache_stable previous_ids fetch days now rest _ _ hstable]
          simpa using he
        · exact ih _ hwf' hnd' t ht

end ChangedLoopLemmas

section DetectLemmas

theorem detect_changes_def (current_doctors : List Doctor)
    (previous_state : State) (location_cache : Dict CacheEntry)
    (fetch : String → DetailPage) (cache_days now : Int) :
    detect_changes current_doctors previous_state location_cache fetch
        cache_days now
      = (let a := addedLoop previous_state.doctors fetch cache_days now
            (dictOfList current_doctors) location_cache
        let rm := removedLoop a.items a.cache previous_state.doctors
        let c := changedLoop rm.2 fetch cache_days now a.items a.cache
        { changes :=
            { added := a.added
              removed := rm.1
              changed := c.changed
              location_cache := c.cache }
          current_ids := c.items
          previous_doctors := rm.2
          fetched := a.fetched ++ c.fetched }) := rfl

theorem detect_changes_added_ids (current_doctors : List Doctor)
    (previous_state : State) (location_cache : Dict CacheEntry)
    (fetch : String → DetailPage) (cache_days now : Int) :
    (detect_changes current_doctors previous_state location_cache fetch
        cache_days now).changes.added.map (fun x => x.id)
      = ((dictOfList current_doctors).filter
          (fun kv => !(dmem previous_state.doctors kv.1))).map
            (fun kv => kv.2.id) := by
  rw [detect_changes_def]
  exact addedLoop_added_ids previous_state.doctors fetch cache_days now
    (dictOfList current_doctors) location_cache

theorem detect_changes_removed_ids (current_doctors : List Doctor)
    (previous_state : State) (location_cache : Dict CacheEntry)
    (fetch : String → DetailPage) (cache_days now : Int) :
    (detect_changes current_doctors previous_state location_cache fetch
        cache_days now).changes.removed.map (fun x => x.id)
      = (previous_state.doctors.filter
          (fun kv => !(dmem (dictOfList current_doctors) kv.1))).map
            (fun kv => kv.2.id) := by
  rw [detect_changes_def]
  simp only []
  rw [removedLoop_fst]
  rw [lfilterMap_if (fun kv => dmem (addedLoop previous_state.doctors fetch
      cache_days now (dictOfList current_doctors) location_cache).items kv.1)
    (fun kv => withLocations kv.2
      (cachedLocations (addedLoop previous_state.doctors fetch
        cache_days now (dictOfList current_doctors) location_cache).cache kv.1))
    previous_state.doctors]
  rw [List.map_map]
  have h₁ : ∀ kv ∈ previous_state.doctors,
      (!(dmem (addedLoop previous_state.doctors fetch cache_days now
          (dictOfList current_doctors) location_cache).items kv.1))
        = (!(dmem (dictOfList current_doctors) kv.1)) := by
    intro kv _
    rw [dmem_eq_of_dkeys_eq _ _ (dkeys_of_proj_eq _ _
      (addedLoop_items_proj previous_state.doctors fetch cache_days now
        (dictOfList current_doctors) location_cache)) kv.1]
  rw [lfilter_congr _ _ _ h₁]
  exact lmap_congr _ _ _ (fun kv _ => rfl)

theorem detect_changes_changed_ids (current_doctors : List Doctor)
    (previous_state : State) (location_cache : Dict CacheEntry)
    (fetch : String → DetailPage) (cache_days now : Int) :
    (detect_changes current_doctors previous_state location_cache fetch
        cache_days now).changes.changed.map (fun t => t.1.id)
      = ((dictOfList current_doctors).filter
          (availabilityDiffers previous_state.doctors)).map
            (fun kv => kv.2.id) := by
  rw [detect_changes_def]
  simp only []
  rw [changedLoop_changed_ids]
  have h₁ : ∀ kv ∈ (addedLoop previous_state.doctors fetch cache_days now
      (dictOfList current_doctors) location_cache).items,
      availabilityDiffers (removedLoop (addedLoop previous_state.doctors fetch
        cache_days now (dictOfList current_doctors) location_cache).items
        (addedLoop previous_state.doctors fetch cache_days now
          (dictOfList current_doctors) location_cache).cache
        previous_state.doctors).2 kv
        = availabilityDiffers previous_state.doctors kv := by
    intro kv _
    exact availabilityDiffers_congr _ _ kv (removedLoop_avail _ _ _ kv.1)
  rw [lfilter_congr _ _ _ h₁]
  refine filter_map_id_of_proj_eq (availabilityDiffers previous_state.doctors)
    ?_ _ _ (addedLoop_items_proj previous_state.doctors fetch cache_days now
      (dictOfList current_doctors) location_cache)
  intro a b hab
  have h₁ : a.1 = b.1 := by
    have := hab
    simp only [projKIA, Prod.mk.injEq] at this
    exact this.1
  have h₂ : a.2.availability = b.2.availability := by
    have := hab
    simp only [projKIA, Prod.mk.injEq] at this
    exact this.2.2
  unfold availabilityDiffers
  rw [h₁]
  cases dget previous_state.doctors b.1 with
  | none => rfl
  | some p => rw [h₂]

end DetectLemmas

section ConversionLemmas

theorem dkeys_dictOfList_of_nodup (cur : List Doctor)
    (hc : (doctorIds cur).Nodup) :
    dkeys (dictOfList cur) = doctorIds cur := by
  rw [dictOfList_eq _ hc]
  simp [dkeys, doctorIds, List.map_map, Function.comp]

theorem filter_pair_ids (cur : List Doctor) (p : String → Bool)
    (hc : (doctorIds cur).Nodup) :
    ((dictOfList cur).filter (fun kv => p kv.1)).map (fun kv => kv.2.id)
      = (doctorIds cur).filter p := by
  rw [dictOfList_eq _ hc]
  rw [lfilter_map (fun d => (d.id, d)) (fun kv => p kv.1) cur]
  rw [List.map_map]
  rw [show doctorIds cur = cur.map (fun d => d.id) from rfl]
  rw [lfilter_map (fun d : Doctor => d.id) p cur]
  rfl

theorem changed_ids_list (cur : List Doctor) (previous_ids : Dict Doctor)
    (hc : (doctorIds cur).Nodup) :
    ((dictOfList cur).filter (availabilityDiffers previous_ids)).map
        (fun kv => kv.2.id)
      = (doctorIds cur).filter
          (availabilityChangedAt (dictOfList cur) previous_ids) := by
  have hpair : dictOfList cur = cur.map (fun d => (d.id, d)) := dictOfList_eq _ hc
  have hknd : (dkeys (dictOfList cur)).Nodup := dkeys_dictOfList_nodup cur
  have hpt : ∀ d ∈ cur, availabilityDiffers previous_ids (d.id, d)
      = availabilityChangedAt (dictOfList cur) previous_ids d.id := by
    intro d hd
    have hga : dget (dictOfList cur) d.id = some d := by
      have : ((d.id, d) : String × Doctor) ∈ dictOfList cur := by
        rw [hpair]
        exact List.mem_map_of_mem _ hd
      exact dget_of_mem_nodup _ hknd (d.id, d) this
    have h1 : ((d.id, d) : String × Doctor).1 = d.id := rfl
    have h2 : ((d.id, d) : String × Doctor).2 = d := rfl
    unfold availabilityDiffers availabilityChangedAt
    rw [h1, h2, hga]
    cases dget previous_ids d.id <;> rfl
  conv_lhs => rw [hpair]
  rw [lfilter_map (fun d => (d.id, d)) (availabilityDiffers previous_ids) cur]
  rw [List.map_map]
  rw [lfilter_congr _ _ cur hpt]
  rw [show doctorIds cur = cur.map (fun d => d.id) from rfl]
  rw [lfilter_map (fun d : Doctor => d.id)
    (availabilityChangedAt (dictOfList cur) previous_ids) cur]
  rfl

theorem removed_ids_list (cur : List Doctor) (previous_ids : Dict Doctor)
    (hw : wfDict previous_ids) :
    (previous_ids.filter (fun kv => !(dmem (dictOfList cur) kv.1))).map
        (fun kv => kv.2.id)
      = (dkeys previous_ids).filter (fun i => !(dmem (dictOfList cur) i)) := by
  rw [lmap_congr (fun kv : String × Doctor => kv.2.id) (fun kv => kv.1) _
    (fun kv hkv => hw kv (List.mem_filter.mp hkv).1)]
  rw [show dkeys previous_ids
    = previous_ids.map (fun kv : String × Doctor => kv.1) from rfl]
  rw [lfilter_map (fun kv : String × Doctor => kv.1)
    (fun i => !(dmem (dictOfList cur) i)) previous_ids]

theorem availabilityChangedAt_true (c p : Dict Doctor) (i : String)
    (h : availabilityChangedAt c p i = true) :
    dmem c i = true ∧ dmem p i = true := by
  unfold availabilityChangedAt at h
  cases hc : dget c i with
  | none => rw [hc] at h; cases h
  | some x =>
    cases hp : dget p i with
    | none => rw [hc, hp] at h; cases h
    | some y =>
      constructor <;> simp [dmem, hc, hp]

theorem lfilterMap_congr {α β : Type} (f g : α → Option β) (l : List α)
    (h : ∀ a ∈ l, f a = g a) : l.filterMap f = l.filterMap g := by
  induction l with
  | nil => rfl
  | cons a l ih =>
    rw [List.filterMap_cons, List.filterMap_cons,
      h a (List.mem_cons_self _ _),
      ih (fun a' ha' => h a' (List.mem_cons_of_mem _ ha'))]

theorem availabilityDiffers_true_dmem (previous_ids : Dict Doctor)
    (kv : String × Doctor) (h : availabilityDiffers previous_ids kv = true) :
    dmem previous_ids kv.1 = true := by
  unfold availabilityDiffers at h
  cases hg : dget previous_ids kv.1 with
  | none => rw [hg] at h; cases h
  | some p => simp [dmem, hg]

theorem addedLoop_added_ids_subset (previous_ids : Dict Doctor)
    (fetch : String → DetailPage) (days now : Int) (items : Dict Doctor)
    (cache : Dict CacheEntry) (hwf : wfDict items) :
    ∀ k ∈ (addedLoop previous_ids fetch days now items cache).added.map
        (fun x => x.id),
      k ∈ dkeys items ∧ dmem previous_ids k = false := by
  intro k hk
  rw [addedLoop_added_ids] at hk
  obtain ⟨kv, hkv, hid⟩ := List.mem_map.mp hk
  have h1 := List.mem_filter.mp hkv
  have hkk : kv.1 = k := by rw [← hwf kv h1.1, hid]
  constructor
  · rw [← hkk]
    exact List.mem_map_of_mem _ h1.1
  · have := h1.2
    simp only [Bool.not_eq_true'] at this
    rw [← hkk]
    exact this

theorem changedLoop_changed_ids_dmem (previous_ids : Dict Doctor)
    (fetch : String → DetailPage) (days now : Int) (items : Dict Doctor)
    (cache : Dict CacheEntry) (hwf : wfDict items) :
    ∀ k ∈ (changedLoop previous_ids fetch days now items cache).changed.map
        (fun t => t.1.id),
      k ∈ dkeys items ∧ dmem previous_ids k = true := by
  intro k hk
  rw [changedLoop_changed_ids] at hk
  obtain ⟨kv, hkv, hid⟩ := List.mem_map.mp hk
  have h1 := List.mem_filter.mp hkv
  have hkk : kv.1 = k := by rw [← hwf kv h1.1, hid]
  constructor
  · rw [← hkk]
    exact List.mem_map_of_mem _ h1.1
  · rw [← hkk]
    exact availabilityDiffers_true_dmem previous_ids kv h1.2

end ConversionLemmas

/-- Claim C1: over snapshots with unique, well-formed ids, detect_changes
classifies every id in exactly one of the four disjoint classes: ids in
current but not previous are added, ids in previous but not current are
removed, ids in both with differing availability are changed, and ids in both
with equal availability are in no output list; no id repeats within or across
the lists. -/
theorem detect_changes_partitions (current_doctors : List Doctor)
    (previous_state : State) (location_cache : Dict CacheEntry)
    (fetch : String → DetailPage) (cache_days now : Int)
    (hc : (doctorIds current_doctors).Nodup)
    (hp : (dkeys previous_state.doctors).Nodup)
    (hw : wfDict previous_state.doctors) :
    (doctorIds (detect_changes current_doctors previous_state location_cache
        fetch cache_days now).changes.added
      = (doctorIds current_doctors).filter
          (fun i => !(dmem previous_state.doctors i)))
    ∧ (doctorIds (detect_changes current_doctors previous_state location_cache
        fetch cache_days now).changes.removed
      = (dkeys previous_state.doctors).filter
          (fun i => !(dmem (dictOfList current_doctors) i)))
    ∧ ((detect_changes current_doctors previous_state location_cache fetch
        cache_days now).changes.changed.map (fun t => t.1.id)
      = (doctorIds current_doctors).filter
          (availabilityChangedAt (dictOfList current_doctors)
            previous_state.doctors))
    ∧ (doctorIds (detect_changes current_doctors previous_state location_cache
        fetch cache_days now).changes.added).Nodup
    ∧ (doctorIds (detect_changes current_doctors previous_state location_cache
        fetch cache_days now).changes.removed).Nodup
    ∧ ((detect_changes current_doctors previous_state location_cache fetch
        cache_days now).changes.changed.map (fun t => t.1.id)).Nodup
    ∧ (∀ i, i ∈ doctorIds (detect_changes current_doctors previous_state
          location_cache fetch cache_days now).changes.added →
        i ∉ doctorIds (detect_changes current_doctors previous_state
          location_cache fetch cache_days now).changes.removed
        ∧ i ∉ (detect_changes current_doctors previous_state location_cache
          fetch cache_days now).changes.changed.map (fun t => t.1.id))
    ∧ (∀ i, i ∈ doctorIds (detect_changes current_doctors previous_state
          location_cache fetch cache_days now).changes.removed →
        i ∉ (detect_changes current_doctors previous_state location_cache
          fetch cache_days now).changes.changed.map (fun t => t.1.id))
    ∧ (∀ i, dmem (dictOfList current_doctors) i = true →
        dmem previous_state.doctors i = true →
        availabilityChangedAt (dictOfList current_doctors)
          previous_state.doctors i = false →
        i ∉ doctorIds (detect_changes current_doctors previous_state
          location_cache fetch cache_days now).changes.added
        ∧ i ∉ doctorIds (detect_changes current_doctors previous_state
          location_cache fetch cache_days now).changes.removed
        ∧ i ∉ (detect_changes current_doctors previous_state location_cache
          fetch cache_days now).changes.changed.map (fun t => t.1.id))
    ∧ (∀ i, i ∈ doctorIds current_doctors ∨ i ∈ dkeys previous_state.doctors →
        i ∈ doctorIds (detect_changes current_doctors previous_state
          location_cache fetch cache_days now).changes.added
        ∨ i ∈ doctorIds (detect_changes current_doctors previous_state
          location_cache fetch cache_days now).changes.removed
        ∨ i ∈ (detect_changes current_doctors previous_state location_cache
          fetch cache_days now).changes.changed.map (fun t => t.1.id)
        ∨ (dmem (dictOfList current_doctors) i = true
          ∧ dmem previous_state.doctors i = true
          ∧ availabilityChangedAt (dictOfList current_doctors)
              previous_state.doctors i = false)) := by
  have hA : doctorIds (detect_changes current_doctors previous_state
      location_cache fetch cache_days now).changes.added
      = (doctorIds current_doctors).filter
          (fun i => !(dmem previous_state.doctors i)) := by
    rw [show doctorIds (detect_changes current_doctors previous_state
        location_cache fetch cache_days now).changes.added
      = (detect_changes current_doctors previous_state location_cache fetch
          cache_days now).changes.added.map (fun x => x.id) from rfl]
    rw [detect_changes_added_ids]
    exact filter_pair_ids current_doctors
      (fun i => !(dmem previous_state.doctors i)) hc
  have hB : doctorIds (detect_changes current_doctors previous_state
      location_cache fetch cache_days now).changes.removed
      = (dkeys previous_state.doctors).filter
          (fun i => !(dmem (dictOfList current_doctors) i)) := by
    rw [show doctorIds (detect_changes current_doctors previous_state
        location_cache fetch cache_days now).changes.removed
      = (detect_changes current_doctors previous_state location_cache fetch
          cache_days now).changes.removed.map (fun x => x.id) from rfl]
    rw [detect_changes_removed_ids]
    exact removed_ids_list current_doctors _ hw
  have hC : (detect_changes current_doctors previous_state location_cache fetch
      cache_days now).changes.changed.map (fun t => t.1.id)
      = (doctorIds current_doctors).filter
          (availabilityChangedAt (dictOfList current_doctors)
            previous_state.doctors) := by
    rw [detect_changes_changed_ids]
    exact changed_ids_list current_doctors _ hc
  have hAmem : ∀ i, i ∈ doctorIds (detect_changes current_doctors previous_state
      location_cache fetch cache_days now).changes.added →
      i ∈ doctorIds current_doctors ∧ dmem previous_state.doctors i = false := by
    intro i hi
    rw [hA] at hi
    have := List.mem_filter.mp hi
    exact ⟨this.1, by simpa using this.2⟩
  have hBmem : ∀ i, i ∈ doctorIds (detect_changes current_doctors previous_state
      location_cache fetch cache_days now).changes.removed →
      i ∈ dkeys previous_state.doctors
        ∧ dmem (dictOfList current_doctors) i = false := by
    intro i hi
    rw [hB] at hi
    have := List.mem_filter.mp hi
    exact ⟨this.1, by simpa using this.2⟩
  have hCmem : ∀ i, i ∈ (detect_changes current_doctors previous_state
      location_cache fetch cache_days now).changes.changed.map (fun t => t.1.id) →
      dmem (dictOfList current_doctors) i = true
        ∧ dmem previous_state.doctors i = true := by
    intro i hi
    rw [hC] at hi
    exact availabilityChangedAt_true _ _ _ (List.mem_filter.mp hi).2
  refine ⟨hA, hB, hC, ?_, ?_, ?_, ?_, ?_, ?_, ?_⟩
  · rw [hA]; exact hc.filter _
  · rw [hB]; exact hp.filter _
  · rw [hC]; exact hc.filter _
  · intro i hi
    obtain ⟨hcur, hnprev⟩ := hAmem i hi
    constructor
    · intro hr
      have := (hBmem i hr).1
      rw [(dmem_iff previous_state.doctors i).mpr this] at hnprev
      cases hnprev
    · intro hch
      rw [(hCmem i hch).2] at hnprev
      cases hnprev
  · intro i hi hch
    have h₁ := (hBmem i hi).2
    rw [(hCmem i hch).1] at h₁
    cases h₁
  · intro i hcuri hprevi hnav
    refine ⟨?_, ?_, ?_⟩
    · intro hi
      rw [(hAmem i hi).2] at hprevi
      cases hprevi
    · intro hi
      rw [(hBmem i hi).2] at hcuri
      cases hcuri
    · intro hi
      rw [hC] at hi
      rw [(List.mem_filter.mp hi).2] at hnav
      cases hnav
  · intro i hi
    by_cases hcuri : dmem (dictOfList current_doctors) i = true
    · have hicur : i ∈ doctorIds current_doctors := by
        rw [← dkeys_dictOfList_of_nodup current_doctors hc]
        exact (dmem_iff _ i).mp hcuri
      by_cases hprevi : dmem previous_state.doctors i = true
      · by_cases hav : availabilityChangedAt (dictOfList current_doctors)
            previous_state.doctors i = true
        · refine Or.inr (Or.inr (Or.inl ?_))
          rw [hC]
          exact List.mem_filter.mpr ⟨hicur, hav⟩
        · exact Or.inr (Or.inr (Or.inr ⟨hcuri, hprevi,
            Bool.not_eq_true _ ▸ hav⟩))
      · refine Or.inl ?_
        rw [hA]
        refine List.mem_filter.mpr ⟨hicur, ?_⟩
        simp only [Bool.not_eq_true'] at hprevi ⊢
        exact Bool.not_eq_true _ ▸ hprevi
    · have hiprev : i ∈ dkeys previous_state.doctors := by
        rcases hi with hi | hi
        · exfalso
          apply hcuri
          rw [dmem_iff]
          rw [dkeys_dictOfList_of_nodup current_doctors hc]
          exact hi
        · exact hi
      refine Or.inr (Or.inl ?_)
      rw [hB]
      refine List.mem_filter.mpr ⟨hiprev, ?_⟩
      simp only [Bool.not_eq_true'] at hcuri ⊢
      exact Bool.not_eq_true _ ▸ hcuri

/-- Witness for C1 at a concrete pair of snapshots. -/
theorem detect_changes_partitions_witness :
    ((doctorIds [docB]).Nodup ∧ (dkeys stA.doctors).Nodup ∧ wfDict stA.doctors)
    ∧ doctorIds (detect_changes [docB] stA [] (fun _ => none) 7 0).changes.added
      = (doctorIds [docB]).filter (fun i => !(dmem stA.doctors i)) := by
  refine ⟨⟨by decide, by decide, by decide⟩, ?_⟩
  exact (detect_changes_partitions [docB] stA [] (fun _ => none) 7 0
    (by decide) (by decide) (by decide)).1

/-- Claim C9: diffing a snapshot against itself yields an empty change-set. -/
theorem detect_changes_self_empty (st : State) (cache : Dict CacheEntry)
    (fetch : String → DetailPage) (cache_days now : Int)
    (hp : (dkeys st.doctors).Nodup) (hw : wfDict st.doctors) :
    (detect_changes (st.doctors.map (fun kv => kv.2)) st cache fetch
        cache_days now).changes.added = []
    ∧ (detect_changes (st.doctors.map (fun kv => kv.2)) st cache fetch
        cache_days now).changes.removed = []
    ∧ (detect_changes (st.doctors.map (fun kv => kv.2)) st cache fetch
        cache_days now).changes.changed = [] := by
  have hvals : dictOfList (st.doctors.map (fun kv => kv.2)) = st.doctors :=
    dictOfList_vals st.doctors hw hp
  have hmemfil : st.doctors.filter (fun kv => !(dmem st.doctors kv.1)) = [] := by
    refine lfilter_eq_nil _ _ ?_
    intro kv hkv
    have : dmem st.doctors kv.1 = true := by
      rw [dmem_iff]
      exact List.mem_map_of_mem _ hkv
    simp [this]
  refine ⟨?_, ?_, ?_⟩
  · have h := detect_changes_added_ids (st.doctors.map (fun kv => kv.2)) st
      cache fetch cache_days now
    rw [hvals, hmemfil] at h
    simp only [List.map_nil] at h
    exact List.map_eq_nil_iff.mp h
  · have h := detect_changes_removed_ids (st.doctors.map (fun kv => kv.2)) st
      cache fetch cache_days now
    rw [hvals, hmemfil] at h
    simp only [List.map_nil] at h
    exact List.map_eq_nil_iff.mp h
  · have h := detect_changes_changed_ids (st.doctors.map (fun kv => kv.2)) st
      cache fetch cache_days now
    rw [hvals] at h
    have hfil : st.doctors.filter (availabilityDiffers st.doctors) = [] := by
      refine lfilter_eq_nil _ _ ?_
      intro kv hkv
      unfold availabilityDiffers
      rw [dget_of_mem_nodup st.doctors hp kv hkv]
      simp
    rw [hfil] at h
    simp only [List.map_nil] at h
    exact List.map_eq_nil_iff.mp h

/-- Witness for C9 at a concrete snapshot. -/
theorem detect_changes_self_empty_witness :
    ((dkeys stA.doctors).Nodup ∧ wfDict stA.doctors)
    ∧ (detect_changes (stA.doctors.map (fun kv => kv.2)) stA []
        (fun _ => none) 7 0).changes.added = [] := by
  refine ⟨⟨by decide, by decide⟩, ?_⟩
  exact (detect_changes_self_empty stA [] (fun _ => none) 7 0
    (by decide) (by decide)).1

/-- Claim C5: each removed record carries the input cache's locations for its
key (empty when absent) without any fetch being invoked for it, and the cache
is mutated only at ids classified as added or changed. -/
theorem detect_changes_removed_read_only (current_doctors : List Doctor)
    (previous_state : State) (location_cache : Dict CacheEntry)
    (fetch : String → DetailPage) (cache_days now : Int) :
    ((detect_changes current_doctors previous_state location_cache fetch
        cache_days now).changes.removed
      = previous_state.doctors.filterMap (fun kv =>
          if dmem (dictOfList current_doctors) kv.1 then none
          else some (withLocations kv.2 (cachedLocations location_cache kv.1))))
    ∧ (∀ kv ∈ previous_state.doctors,
        dmem (dictOfList current_doctors) kv.1 = false →
        kv.1 ∉ (detect_changes current_doctors previous_state location_cache
          fetch cache_days now).fetched)
    ∧ (∀ k, dget (detect_changes current_doctors previous_state location_cache
          fetch cache_days now).changes.location_cache k ≠ dget location_cache k →
        k ∈ doctorIds (detect_changes current_doctors previous_state
          location_cache fetch cache_days now).changes.added
        ∨ k ∈ (detect_changes current_doctors previous_state location_cache
          fetch cache_days now).changes.changed.map (fun t => t.1.id)) := by
  have hwfc : wfDict (dictOfList current_doctors) :=
    wfDict_dictOfList current_doctors
  have hproj := addedLoop_items_proj previous_state.doctors fetch cache_days now
    (dictOfList current_doctors) location_cache
  have hkeys : dkeys (addedLoop previous_state.doctors fetch cache_days now
      (dictOfList current_doctors) location_cache).items
      = dkeys (dictOfList current_doctors) := dkeys_of_proj_eq _ _ hproj
  have hwfa : wfDict (addedLoop previous_state.doctors fetch cache_days now
      (dictOfList current_doctors) location_cache).items :=
    wf_of_proj_eq _ _ hproj hwfc
  have hstable : ∀ k, dmem (dictOfList current_doctors) k = false →
      dget (addedLoop previous_state.doctors fetch cache_days now
        (dictOfList current_doctors) location_cache).cache k
        = dget location_cache k := by
    intro k hk
    refine addedLoop_cache_stable previous_state.doctors fetch cache_days now
      (dictOfList current_doctors) location_cache k ?_
    intro hmem
    obtain ⟨hin, _⟩ := addedLoop_added_ids_subset previous_state.doctors fetch
      cache_days now (dictOfList current_doctors) location_cache hwfc k hmem
    rw [(dmem_iff _ k).mpr hin] at hk
    cases hk
  refine ⟨?_, ?_, ?_⟩
  · rw [detect_changes_def]
    simp only []
    rw [removedLoop_fst]
    refine lfilterMap_congr _ _ previous_state.doctors ?_
    intro kv _
    rw [dmem_eq_of_dkeys_eq _ _ hkeys kv.1]
    cases hm : dmem (dictOfList current_doctors) kv.1
    · simp only [Bool.false_eq_true, if_false]
      unfold cachedLocations
      rw [hstable kv.1 hm]
    · simp only [if_true]
  · intro kv hkv hm hmem
    rw [detect_changes_def] at hmem
    simp only [] at hmem
    rcases List.mem_append.mp hmem with hmem | hmem
    · have h1 := addedLoop_fetched_sub previous_state.doctors fetch cache_days
        now (dictOfList current_doctors) location_cache kv.1 hmem
      obtain ⟨hin, _⟩ := addedLoop_added_ids_subset previous_state.doctors fetch
        cache_days now (dictOfList current_doctors) location_cache hwfc kv.1 h1
      rw [(dmem_iff _ kv.1).mpr hin] at hm
      cases hm
    · have h1 := changedLoop_fetched_sub _ fetch cache_days now _ _ kv.1 hmem
      obtain ⟨hin, _⟩ := changedLoop_changed_ids_dmem _ fetch cache_days now _ _
        hwfa kv.1 h1
      rw [hkeys] at hin
      rw [(dmem_iff _ kv.1).mpr hin] at hm
      cases hm
  · intro k hk
    by_cases h1 : k ∈ doctorIds (detect_changes current_doctors previous_state
        location_cache fetch cache_days now).changes.added
    · exact Or.inl h1
    by_cases h2 : k ∈ (detect_changes current_doctors previous_state
        location_cache fetch cache_days now).changes.changed.map (fun t => t.1.id)
    · exact Or.inr h2
    exfalso
    apply hk
    rw [detect_changes_def] at h1 h2 ⊢
    simp only [] at h1 h2 ⊢
    rw [changedLoop_cache_stable _ fetch cache_days now _ _ k h2]
    exact addedLoop_cache_stable previous_state.doctors fetch cache_days now
      (dictOfList current_doctors) location_cache k h1

/-- Witness for C5 at a concrete input: doctor A is removed, its record reads
the cached locations, and the cache is untouched. -/
theorem detect_changes_removed_read_only_witness :
    (detect_changes [] stA cacheA (fun _ => none) 7 0).changes.removed
      = stA.doctors.filterMap (fun kv =>
          if dmem (dictOfList []) kv.1 then none
          else some (withLocations kv.2 (cachedLocations cacheA kv.1))) :=
  (detect_changes_removed_read_only [] stA cacheA (fun _ => none) 7 0).1

/-- Counterexample to C3 as stated: detect_changes does mutate an entity
record of the previous snapshot — the removed doctor's record gets its
locations key written in place from the cache. -/
theorem detect_changes_mutates_previous_cex :
    (detect_changes [] stA cacheA (fun _ => none) 7 0).previous_doctors
      ≠ stA.doctors := by
  decide

/-- Claim C3 amended: detect_changes mutates previous-snapshot records exactly
at removed ids (writing the cached locations, or the empty list, into the
record); records whose id is in current are untouched.  The location lists in
the returned change-set for added and changed entities are the very lists
stored in the returned cache at their ids (shared objects in the
implementation, equal values here), not independent copies. -/
theorem detect_changes_previous_mutation_spec (current_doctors : List Doctor)
    (previous_state : State) (location_cache : Dict CacheEntry)
    (fetch : String → DetailPage) (cache_days now : Int) :
    ((detect_changes current_doctors previous_state location_cache fetch
        cache_days now).previous_doctors
      = previous_state.doctors.map (fun kv => (kv.1,
          if dmem (dictOfList current_doctors) kv.1 then kv.2
          else withLocations kv.2 (cachedLocations location_cache kv.1))))
    ∧ (∀ x ∈ (detect_changes current_doctors previous_state location_cache
        fetch cache_days now).changes.added,
        ∃ e, dget (detect_changes current_doctors previous_state location_cache
            fetch cache_days now).changes.location_cache x.id = some e
          ∧ x.locations = some e.locations)
    ∧ (∀ t ∈ (detect_changes current_doctors previous_state location_cache
        fetch cache_days now).changes.changed,
        ∃ e, dget (detect_changes current_doctors previous_state location_cache
            fetch cache_days now).changes.location_cache
            (t : Doctor × String × String).1.id = some e
          ∧ t.1.locations = some e.locations) := by
  have hwfc : wfDict (dictOfList current_doctors) :=
    wfDict_dictOfList current_doctors
  have hndc : (dkeys (dictOfList current_doctors)).Nodup :=
    dkeys_dictOfList_nodup current_doctors
  have hproj := addedLoop_items_proj previous_state.doctors fetch cache_days now
    (dictOfList current_doctors) location_cache
  have hkeys : dkeys (addedLoop previous_state.doctors fetch cache_days now
      (dictOfList current_doctors) location_cache).items
      = dkeys (dictOfList current_doctors) := dkeys_of_proj_eq _ _ hproj
  have hwfa : wfDict (addedLoop previous_state.doctors fetch cache_days now
      (dictOfList current_doctors) location_cache).items :=
    wf_of_proj_eq _ _ hproj hwfc
  have hnda : (dkeys (addedLoop previous_state.doctors fetch cache_days now
      (dictOfList current_doctors) location_cache).items).Nodup := by
    rw [hkeys]; exact hndc
  have hstable : ∀ k, dmem (dictOfList current_doctors) k = false →
      dget (addedLoop previous_state.doctors fetch cache_days now
        (dictOfList current_doctors) location_cache).cache k
        = dget location_cache k := by
    intro k hk
    refine addedLoop_cache_stable previous_state.doctors fetch cache_days now
      (dictOfList current_doctors) location_cache k ?_
    intro hmem
    obtain ⟨hin, _⟩ := addedLoop_added_ids_subset previous_state.doctors fetch
      cache_days now (dictOfList current_doctors) location_cache hwfc k hmem
    rw [(dmem_iff _ k).mpr hin] at hk
    cases hk
  refine ⟨?_, ?_, ?_⟩
  · rw [detect_changes_def]
    simp only []
    rw [removedLoop_snd]
    refine lmap_congr _ _ previous_state.doctors ?_
    intro kv _
    rw [dmem_eq_of_dkeys_eq _ _ hkeys kv.1]
    cases hm : dmem (dictOfList current_doctors) kv.1
    · simp only [Bool.false_eq_true, if_false]
      unfold cachedLocations
      rw [hstable kv.1 hm]
    · simp only [if_true]
  · intro x hx
    rw [detect_changes_def] at hx ⊢
    simp only [] at hx ⊢
    obtain ⟨e, he, hl⟩ := addedLoop_alias previous_state.doctors fetch cache_days
      now (dictOfList current_doctors) location_cache hwfc hndc x hx
    refine ⟨e, ?_, hl⟩
    rw [changedLoop_cache_stable _ fetch cache_days now _ _ x.id ?_]
    · exact he
    · intro hmem
      obtain ⟨hin, hdm⟩ := changedLoop_changed_ids_dmem _ fetch cache_days now
        _ _ hwfa x.id hmem
      rw [dmem_eq_of_dkeys_eq _ _ (removedLoop_dkeys _ _ _) x.id] at hdm
      have hidmem : x.id ∈ (addedLoop previous_state.doctors fetch cache_days
          now (dictOfList current_doctors) location_cache).added.map
            (fun y => y.id) := List.mem_map_of_mem _ hx
      obtain ⟨_, hnp⟩ := addedLoop_added_ids_subset previous_state.doctors fetch
        cache_days now (dictOfList current_doctors) location_cache hwfc
        x.id hidmem
      rw [hnp] at hdm
      cases hdm
  · intro t ht
    rw [detect_changes_def] at ht ⊢
    simp only [] at ht ⊢
    exact changedLoop_alias _ fetch cache_days now _ _ hwfa hnda t ht

/-- Claim C4: get_doctor_locations invokes the detail fetch iff the id is
absent from the cache or now minus the stored timestamp reaches the TTL in
seconds; a fresh hit returns the cached locations with no cache write; a
fetch returns the scraped locations and overwrites the entry with them and
timestamp now; and a second call for the same id at the same now with a
positive TTL never fetches. -/
theorem get_doctor_locations_ttl_spec (doctor_id : String)
    (page page2 : DetailPage) (location_cache : Dict CacheEntry)
    (cache_days now : Int) :
    ((get_doctor_locations doctor_id page location_cache cache_days
        now).fetched = true
      ↔ dget location_cache doctor_id = none
        ∨ ∃ c, dget location_cache doctor_id = some c
            ∧ cache_days * 24 * 3600 ≤ now - c.timestamp)
    ∧ (∀ c, dget location_cache doctor_id = some c →
        now - c.timestamp < cache_days * 24 * 3600 →
        get_doctor_locations doctor_id page location_cache cache_days now
          = { locations := c.locations, cache := location_cache
              fetched := false })
    ∧ ((get_doctor_locations doctor_id page location_cache cache_days
          now).fetched = true →
        get_doctor_locations doctor_id page location_cache cache_days now
          = { locations := scrape_doctor_locations page
              cache := dset location_cache doctor_id
                { locations := scrape_doctor_locations page, timestamp := now }
              fetched := true })
    ∧ (0 < cache_days →
        (get_doctor_locations doctor_id page2
          (get_doctor_locations doctor_id page location_cache cache_days
            now).cache cache_days now).fetched = false) := by
  have hexp : ∀ hd : 0 < cache_days, (0 : Int) < cache_days * 24 * 3600 :=
    fun hd => mul_pos (mul_pos hd (by norm_num)) (by norm_num)
  refine ⟨?_, ?_, ?_, ?_⟩
  · cases h : dget location_cache doctor_id with
    | none =>
      rw [gdl_none doctor_id page location_cache cache_days now h]
      simp
    | some c =>
      by_cases hf : now - c.timestamp < cache_days * 24 * 3600
      · rw [gdl_hit doctor_id page location_cache cache_days now c h hf]
        simp only []
        constructor
        · intro hcon; cases hcon
        · intro hcon
          rcases hcon with hcon | ⟨c', hc', hle⟩
          · exact Option.noConfusion hcon
          · injection hc' with hcc
            subst hcc
            exact absurd hf (not_lt.mpr hle)
      · rw [gdl_expired doctor_id page location_cache cache_days now c h hf]
        simp only [true_iff]
        exact Or.inr ⟨c, rfl, le_of_not_lt hf⟩
  · intro c hc hf
    exact gdl_hit doctor_id page location_cache cache_days now c hc hf
  · intro hfet
    cases h : dget location_cache doctor_id with
    | none => exact gdl_none doctor_id page location_cache cache_days now h
    | some c =>
      by_cases hf : now - c.timestamp < cache_days * 24 * 3600
      · rw [gdl_hit doctor_id page location_cache cache_days now c h hf] at hfet
        cases hfet
      · exact gdl_expired doctor_id page location_cache cache_days now c h hf
  · intro hd
    cases h : dget location_cache doctor_id with
    | none =>
      rw [gdl_none doctor_id page location_cache cache_days now h]
      have hself : dget (dset location_cache doctor_id
          { locations := scrape_doctor_locations page, timestamp := now })
          doctor_id = some ⟨scrape_doctor_locations page, now⟩ := by
        rw [dget_dset]
        simp
      rw [gdl_hit doctor_id page2 _ cache_days now _ hself
        (by simpa using hexp hd)]
    | some c =>
      by_cases hf : now - c.timestamp < cache_days * 24 * 3600
      · rw [gdl_hit doctor_id page location_cache cache_days now c h hf]
        rw [gdl_hit doctor_id page2 location_cache cache_days now c h hf]
      · rw [gdl_expired doctor_id page location_cache cache_days now c h hf]
        have hself : dget (dset location_cache doctor_id
            { locations := scrape_doctor_locations page, timestamp := now })
            doctor_id = some ⟨scrape_doctor_locations page, now⟩ := by
          rw [dget_dset]
          simp
        rw [gdl_hit doctor_id page2 _ cache_days now _ hself
          (by simpa using hexp hd)]

/-- Witness for C4 at a concrete input: after a cold fetch at time 100, a
second call at time 100 with positive TTL is a pure cache hit. -/
theorem get_doctor_locations_ttl_spec_witness :
    (0 : Int) < 7
    ∧ (get_doctor_locations "A" (some ["Comune: ARCO"])
        (get_doctor_locations "A" none [] 7 100).cache 7 100).fetched = false :=
  ⟨by decide,
    (get_doctor_locations_ttl_spec "A" none (some ["Comune: ARCO"]) [] 7
      100).2.2.2 (by decide)⟩

/-- Claim C6: when the detail fetch fails (an exception inside
scrape_doctor_locations) on a cache miss or expired entry, the failure does
not propagate: the call returns the empty list, the cache records the id with
the empty list and the current timestamp, and any later call within the TTL
window is a cache hit returning the empty list with no fetch. -/
theorem detail_fetch_failure_degrades (doctor_id : String)
    (location_cache : Dict CacheEntry) (cache_days now : Int)
    (h : dget location_cache doctor_id = none
      ∨ ∃ c, dget location_cache doctor_id = some c
          ∧ cache_days * 24 * 3600 ≤ now - c.timestamp) :
    (get_doctor_locations doctor_id none location_cache cache_days
        now).locations = []
    ∧ (get_doctor_locations doctor_id none location_cache cache_days
        now).fetched = true
    ∧ dget (get_doctor_locations doctor_id none location_cache cache_days
        now).cache doctor_id = some { locations := [], timestamp := now }
    ∧ (∀ (now2 : Int) (page2 : DetailPage),
        now2 - now < cache_days * 24 * 3600 →
        (get_doctor_locations doctor_id page2
          (get_doctor_locations doctor_id none location_cache cache_days
            now).cache cache_days now2).fetched = false
        ∧ (get_doctor_locations doctor_id page2
            (get_doctor_locations doctor_id none location_cache cache_days
              now).cache cache_days now2).locations = []) := by
  have hrun : get_doctor_locations doctor_id none location_cache cache_days now
      = { locations := []
          cache := dset location_cache doctor_id
            { locations := [], timestamp := now }
          fetched := true } := by
    rcases h with h | ⟨c, hc, hle⟩
    · exact gdl_none doctor_id none location_cache cache_days now h
    · exact gdl_expired doctor_id none location_cache cache_days now c hc
        (not_lt.mpr hle)
  have hself : dget (dset location_cache doctor_id
      { locations := [], timestamp := now }) doctor_id
      = some { locations := [], timestamp := now } := by
    rw [dget_dset]
    simp
  refine ⟨by rw [hrun], by rw [hrun], by rw [hrun]; exact hself, ?_⟩
  intro now2 page2 hlt
  rw [hrun]
  rw [gdl_hit doctor_id page2 _ cache_days now2 _ hself (by simpa using hlt)]
  exact ⟨rfl, rfl⟩

/-- Witness for C6 at a concrete input: a failing fetch on an empty cache. -/
theorem detail_fetch_failure_degrades_witness :
    (dget ([] : Dict CacheEntry) "A" = none
      ∨ ∃ c, dget ([] : Dict CacheEntry) "A" = some c
          ∧ (7 : Int) * 24 * 3600 ≤ 100 - c.timestamp)
    ∧ (get_doctor_locations "A" none [] 7 100).locations = []
    ∧ dget (get_doctor_locations "A" none [] 7 100).cache "A"
        = some { locations := [], timestamp := 100 } :=
  ⟨Or.inl rfl, (detail_fetch_failure_degrades "A" [] 7 100 (Or.inl rfl)).1,
    (detail_fetch_failure_degrades "A" [] 7 100 (Or.inl rfl)).2.2.1⟩

section MainLemmas

theorem isEmpty_false_of_ne_nil {α : Type} (l : List α) (h : l ≠ []) :
    l.isEmpty = false := by
  cases l with
  | nil => exact absurd rfl h
  | cons a l => rfl

theorem main_validated (cfg : Config) (stateFile : StateFile)
    (scrapeResult : Option (List Doctor)) (fetch : String → DetailPage)
    (now : Int) (notifyOk : Bool)
    (h1 : cfg.bot_token ≠ "") (h2 : cfg.channel_id ≠ "")
    (h3 : cfg.search_mode ≠ "") (hok : (get_search_url cfg).isOk = true) :
    main cfg stateFile scrapeResult fetch now notifyOk
      = (match scrapeResult with
        | none =>
          { result := RunResult.exception, saved := none
            notifyAttempt := none, fetched := [] }
        | some current_doctors =>
          if current_doctors.isEmpty then
            { result := RunResult.exitCode 1, saved := none
              notifyAttempt := none, fetched := [] }
          else if stateFile.isNone then
            { result := RunResult.exitCode 0
              saved := some { doctors := dictOfList current_doctors
                              location_cache := [] }
              notifyAttempt := none, fetched := [] }
          else
            let state := load_state stateFile
            let r := detect_changes current_doctors state state.location_cache
              fetch cfg.cache_days now
            let total_changes := r.changes.added.length
              + r.changes.removed.length + r.changes.changed.length
            let new_state : State :=
              { doctors := r.current_ids
                location_cache := r.changes.location_cache }
            if total_changes > 0 then
              if notifyOk then
                { result := RunResult.exitCode 0, saved := some new_state
                  notifyAttempt := some r.changes, fetched := r.fetched }
              else
                { result := RunResult.exception, saved := none
                  notifyAttempt := some r.changes, fetched := r.fetched }
            else
              { result := RunResult.exitCode 0, saved := some new_state
                notifyAttempt := none, fetched := r.fetched }) := by
  unfold main
  rw [if_neg (by simp [h1, h2, h3])]
  cases h : get_search_url cfg with
  | error e => rw [h] at hok; simp [Except.isOk, Except.toBool] at hok
  | ok u => rfl

end MainLemmas

/-- Claim C8: on any run (bootstrap or steady) where the listing scrape
returns zero entities, main exits with code 1 and writes nothing: no state is
saved, no notification is attempted, no detail page is fetched, and any
previously persisted state is therefore left intact. -/
theorem empty_listing_aborts_run (cfg : Config) (stateFile : StateFile)
    (fetch : String → DetailPage) (now : Int) (notifyOk : Bool)
    (h1 : cfg.bot_token ≠ "") (h2 : cfg.channel_id ≠ "")
    (h3 : cfg.search_mode ≠ "")
    (hok : (get_search_url cfg).isOk = true) :
    main cfg stateFile (some []) fetch now notifyOk
      = { result := RunResult.exitCode 1, saved := none
          notifyAttempt := none, fetched := [] } := by
  rw [main_validated cfg stateFile (some []) fetch now notifyOk h1 h2 h3 hok]
  rfl

/-- Witness for C8 at a concrete configuration and state file. -/
theorem empty_listing_aborts_run_witness :
    (cfgOk.bot_token ≠ "" ∧ cfgOk.channel_id ≠ "" ∧ cfgOk.search_mode ≠ ""
      ∧ (get_search_url cfgOk).isOk = true)
    ∧ main cfgOk (some (some stA)) (some []) (fun _ => none) 0 true
      = { result := RunResult.exitCode 1, saved := none
          notifyAttempt := none, fetched := [] } :=
  ⟨⟨by decide, by decide, by decide, by decide⟩,
    empty_listing_aborts_run cfgOk (some (some stA)) (fun _ => none) 0 true
      (by decide) (by decide) (by decide) (by decide)⟩

/-- Claim C7: a first run (no state file) with a non-empty listing persists
exactly the fetched entities keyed by id with an empty cache, attempts no
notification, fetches no detail page, and exits with code 0. -/
theorem bootstrap_run_spec (cfg : Config) (ds : List Doctor)
    (fetch : String → DetailPage) (now : Int) (notifyOk : Bool)
    (h1 : cfg.bot_token ≠ "") (h2 : cfg.channel_id ≠ "")
    (h3 : cfg.search_mode ≠ "")
    (hok : (get_search_url cfg).isOk = true)
    (hne : ds ≠ []) (hnd : (doctorIds ds).Nodup) :
    main cfg none (some ds) fetch now notifyOk
      = { result := RunResult.exitCode 0
          saved := some { doctors := dictOfList ds, location_cache := [] }
          notifyAttempt := none, fetched := [] }
    ∧ (∀ i d, dget (dictOfList ds) i = some d ↔ (d ∈ ds ∧ d.id = i)) := by
  constructor
  · rw [main_validated cfg none (some ds) fetch now notifyOk h1 h2 h3 hok]
    simp only [isEmpty_false_of_ne_nil ds hne, Bool.false_eq_true, if_false,
      Option.isNone_none, if_true]
  · intro i d
    constructor
    · intro h
      have hmem := dget_mem _ _ _ h
      rw [dictOfList_eq ds hnd] at hmem
      obtain ⟨d', hd', hdd⟩ := List.mem_map.mp hmem
      injection hdd with hdi hdv
      subst hdv
      exact ⟨hd', hdi⟩
    · intro ⟨hd, hid⟩
      have hmem : ((i, d) : String × Doctor) ∈ dictOfList ds := by
        rw [dictOfList_eq ds hnd]
        rw [← hid]
        exact List.mem_map_of_mem _ hd
      exact dget_of_mem_nodup _ (dkeys_dictOfList_nodup ds) (i, d) hmem

/-- Witness for C7 at a concrete listing of three doctors. -/
theorem bootstrap_run_spec_witness :
    (cfgOk.bot_token ≠ "" ∧ cfgOk.channel_id ≠ "" ∧ cfgOk.search_mode ≠ ""
      ∧ (get_search_url cfgOk).isOk = true
      ∧ [docA, docB, { docA with id := "C" }] ≠ ([] : List Doctor)
      ∧ (doctorIds [docA, docB, { docA with id := "C" }]).Nodup)
    ∧ main cfgOk none (some [docA, docB, { docA with id := "C" }])
        (fun _ => none) 0 true
      = { result := RunResult.exitCode 0
          saved := some { doctors := dictOfList [docA, docB,
            { docA with id := "C" }], location_cache := [] }
          notifyAttempt := none, fetched := [] } :=
  ⟨⟨by decide, by decide, by decide, by decide, by decide, by decide⟩,
    (bootstrap_run_spec cfgOk [docA, docB, { docA with id := "C" }]
      (fun _ => none) 0 true (by decide) (by decide) (by decide) (by decide)
      (by decide) (by decide)).1⟩

/-- Counterexample to C2 as stated: on a steady run with a non-empty
change-set whose notification delivery raises, the run ends by exception and
the new snapshot is NOT persisted — post_to_telegram (src/main.py:475) is not
wrapped in try/except, so save_state (src/main.py:481) never runs. -/
theorem notify_failure_skips_persistence_cex :
    (main cfgOk (some (some stA)) (some [docA2]) (fun _ => none) 0
        false).saved = none
    ∧ (main cfgOk (some (some stA)) (some [docA2]) (fun _ => none) 0
        false).notifyAttempt.isSome = true
    ∧ (main cfgOk (some (some stA)) (some [docA2]) (fun _ => none) 0
        false).result = RunResult.exception := by
  refine ⟨?_, ?_, ?_⟩ <;> decide

/-- Outcome of a validated steady run with a non-empty change-set, for both
delivery outcomes: delivery failure ends the run by exception with nothing
saved, delivery success saves the new snapshot and exits 0. -/
theorem main_steady_outcome (cfg : Config) (fc : Option State)
    (ds : List Doctor) (fetch : String → DetailPage) (now : Int)
    (h1 : cfg.bot_token ≠ "") (h2 : cfg.channel_id ≠ "")
    (h3 : cfg.search_mode ≠ "") (hok : (get_search_url cfg).isOk = true)
    (hne : ds ≠ [])
    (hch : 0 < (detect_changes ds (load_state (some fc))
          (load_state (some fc)).location_cache fetch cfg.cache_days
          now).changes.added.length
        + (detect_changes ds (load_state (some fc))
          (load_state (some fc)).location_cache fetch cfg.cache_days
          now).changes.removed.length
        + (detect_changes ds (load_state (some fc))
          (load_state (some fc)).location_cache fetch cfg.cache_days
          now).changes.changed.length) :
    main cfg (some fc) (some ds) fetch now false
      = { result := RunResult.exception
          saved := none
          notifyAttempt := some (detect_changes ds (load_state (some fc))
            (load_state (some fc)).location_cache fetch cfg.cache_days
            now).changes
          fetched := (detect_changes ds (load_state (some fc))
            (load_state (some fc)).location_cache fetch cfg.cache_days
            now).fetched }
    ∧ main cfg (some fc) (some ds) fetch now true
      = { result := RunResult.exitCode 0
          saved := some
            { doctors := (detect_changes ds (load_state (some fc))
                (load_state (some fc)).location_cache fetch cfg.cache_days
                now).current_ids
              location_cache := (detect_changes ds (load_state (some fc))
                (load_state (some fc)).location_cache fetch cfg.cache_days
                now).changes.location_cache }
          notifyAttempt := some (detect_changes ds (load_state (some fc))
            (load_state (some fc)).location_cache fetch cfg.cache_days
            now).changes
          fetched := (detect_changes ds (load_state (some fc))
            (load_state (some fc)).location_cache fetch cfg.cache_days
            now).fetched } := by
  constructor
  · rw [main_validated cfg (some fc) (some ds) fetch now false h1 h2 h3 hok]
    simp only [isEmpty_false_of_ne_nil ds hne, Bool.false_eq_true, if_false,
      Option.isNone_some]
    rw [if_pos hch]
  · rw [main_validated cfg (some fc) (some ds) fetch now true h1 h2 h3 hok]
    simp only [isEmpty_false_of_ne_nil ds hne, Bool.false_eq_true, if_false,
      Option.isNone_some]
    rw [if_pos hch, if_pos trivial]

/-- Claim C2 amended: a notification failure aborts the run before
persistence.  On a steady run with a non-empty change-set, when delivery
raises, the exception propagates out of main and no state is saved; the new
snapshot is persisted exactly when delivery succeeds (or, per the other
branch of main, when there is nothing to notify). -/
theorem notify_failure_blocks_persistence (cfg : Config) (fc : Option State)
    (ds : List Doctor) (fetch : String → DetailPage) (now : Int)
    (h1 : cfg.bot_token ≠ "") (h2 : cfg.channel_id ≠ "")
    (h3 : cfg.search_mode ≠ "") (hok : (get_search_url cfg).isOk = true)
    (hne : ds ≠ [])
    (hch : 0 < (detect_changes ds (load_state (some fc))
          (load_state (some fc)).location_cache fetch cfg.cache_days
          now).changes.added.length
        + (detect_changes ds (load_state (some fc))
          (load_state (some fc)).location_cache fetch cfg.cache_days
          now).changes.removed.length
        + (detect_changes ds (load_state (some fc))
          (load_state (some fc)).location_cache fetch cfg.cache_days
          now).changes.changed.length) :
    main cfg (some fc) (some ds) fetch now false
      = { result := RunResult.exception
          saved := none
          notifyAttempt := some (detect_changes ds (load_state (some fc))
            (load_state (some fc)).location_cache fetch cfg.cache_days
            now).changes
          fetched := (detect_changes ds (load_state (some fc))
            (load_state (some fc)).location_cache fetch cfg.cache_days
            now).fetched }
    ∧ main cfg (some fc) (some ds) fetch now true
      = { result := RunResult.exitCode 0
          saved := some
            { doctors := (detect_changes ds (load_state (some fc))
                (load_state (some fc)).location_cache fetch cfg.cache_days
                now).current_ids
              location_cache := (detect_changes ds (load_state (some fc))
                (load_state (some fc)).location_cache fetch cfg.cache_days
                now).changes.location_cache }
          notifyAttempt := some (detect_changes ds (load_state (some fc))
            (load_state (some fc)).location_cache fetch cfg.cache_days
            now).changes
          fetched := (detect_changes ds (load_state (some fc))
            (load_state (some fc)).location_cache fetch cfg.cache_days
            now).fetched } :=
  main_steady_outcome cfg fc ds fetch now h1 h2 h3 hok hne hch

/-- Witness for the amended C2 at a concrete steady run. -/
theorem notify_failure_blocks_persistence_witness :
    ([docA2] ≠ ([] : List Doctor)
      ∧ 0 < (detect_changes [docA2] (load_state (some (some stA)))
            (load_state (some (some stA))).location_cache (fun _ => none)
            cfgOk.cache_days 0).changes.added.length
          + (detect_changes [docA2] (load_state (some (some stA)))
            (load_state (some (some stA))).location_cache (fun _ => none)
            cfgOk.cache_days 0).changes.removed.length
          + (detect_changes [docA2] (load_state (some (some stA)))
            (load_state (some (some stA))).location_cache (fun _ => none)
            cfgOk.cache_days 0).changes.changed.length)
    ∧ main cfgOk (some (some stA)) (some [docA2]) (fun _ => none) 0 false
      = { result := RunResult.exception
          saved := none
          notifyAttempt := some (detect_changes [docA2]
            (load_state (some (some stA)))
            (load_state (some (some stA))).location_cache (fun _ => none)
            cfgOk.cache_days 0).changes
          fetched := (detect_changes [docA2] (load_state (some (some stA)))
            (load_state (some (some stA))).location_cache (fun _ => none)
            cfgOk.cache_days 0).fetched } :=
  ⟨⟨by decide, by decide⟩,
    (notify_failure_blocks_persistence cfgOk (some stA) [docA2]
      (fun _ => none) 0 (by decide) (by decide) (by decide) (by decide)
      (by decide) (by decide)).1⟩

/-- Claim C10: a state file that exists but does not parse is not treated as
a bootstrap: load_state falls back to the empty state while the
file-existence check selects the steady path, so the diff runs against an
empty previous snapshot — every listed entity is classified as added, each
one's detail page is fetched, a notification is delivered, the run persists
the new state and exits 0. -/
theorem corrupt_state_file_runs_steady (cfg : Config) (ds : List Doctor)
    (fetch : String → DetailPage) (now : Int)
    (h1 : cfg.bot_token ≠ "") (h2 : cfg.channel_id ≠ "")
    (h3 : cfg.search_mode ≠ "") (hok : (get_search_url cfg).isOk = true)
    (hne : ds ≠ []) (hnd : (doctorIds ds).Nodup) :
    (∃ cs, (main cfg (some none) (some ds) fetch now true).notifyAttempt
        = some cs
      ∧ doctorIds cs.added = doctorIds ds
      ∧ cs.removed = [] ∧ cs.changed = [])
    ∧ (main cfg (some none) (some ds) fetch now true).fetched = doctorIds ds
    ∧ (main cfg (some none) (some ds) fetch now true).result
        = RunResult.exitCode 0
    ∧ (main cfg (some none) (some ds) fetch now true).saved.isSome = true := by
  have hpairids : (dictOfList ds).map (fun kv => kv.2.id) = doctorIds ds := by
    rw [dictOfList_eq ds hnd, List.map_map]
    rfl
  have haddedids : (detect_changes ds (load_state (some none))
      (load_state (some none)).location_cache fetch cfg.cache_days
      now).changes.added.map (fun x => x.id) = doctorIds ds := by
    rw [detect_changes_added_ids]
    rw [lfilter_congr
      (fun kv : String × Doctor => !(dmem (load_state (some none)).doctors kv.1))
      (fun _ => true) (dictOfList ds) (fun kv _ => rfl)]
    rw [List.filter_true]
    exact hpairids
  have hremoved : (detect_changes ds (load_state (some none))
      (load_state (some none)).location_cache fetch cfg.cache_days
      now).changes.removed = [] := by
    have h := detect_changes_removed_ids ds (load_state (some none))
      (load_state (some none)).location_cache fetch cfg.cache_days now
    rw [show (load_state (some none)).doctors = [] from rfl] at h
    simp only [List.filter_nil, List.map_nil] at h
    exact List.map_eq_nil_iff.mp h
  have hchanged : (detect_changes ds (load_state (some none))
      (load_state (some none)).location_cache fetch cfg.cache_days
      now).changes.changed = [] := by
    have h := detect_changes_changed_ids ds (load_state (some none))
      (load_state (some none)).location_cache fetch cfg.cache_days now
    rw [lfilter_eq_nil (availabilityDiffers (load_state (some none)).doctors)
      (dictOfList ds) (fun kv _ => rfl)] at h
    simp only [List.map_nil] at h
    exact List.map_eq_nil_iff.mp h
  have hfetched : (detect_changes ds (load_state (some none))
      (load_state (some none)).location_cache fetch cfg.cache_days
      now).fetched = doctorIds ds := by
    rw [detect_changes_def]
    simp only []
    have hcf : (changedLoop (removedLoop (addedLoop
        (load_state (some none)).doctors fetch cfg.cache_days now
        (dictOfList ds) (load_state (some none)).location_cache).items
        (addedLoop (load_state (some none)).doctors fetch cfg.cache_days now
          (dictOfList ds) (load_state (some none)).location_cache).cache
        (load_state (some none)).doctors).2 fetch cfg.cache_days now
        (addedLoop (load_state (some none)).doctors fetch cfg.cache_days now
          (dictOfList ds) (load_state (some none)).location_cache).items
        (addedLoop (load_state (some none)).doctors fetch cfg.cache_days now
          (dictOfList ds) (load_state (some none)).location_cache).cache).fetched
        = [] := by
      rw [List.eq_nil_iff_forall_not_mem]
      intro k hk
      have h1 := changedLoop_fetched_sub _ fetch cfg.cache_days now _ _ k hk
      rw [changedLoop_changed_ids] at h1
      obtain ⟨kv, hkv, _⟩ := List.mem_map.mp h1
      exact Bool.noConfusion (List.mem_filter.mp hkv).2
    rw [hcf, List.append_nil]
    rw [addedLoop_all_fetch (load_state (some none)).doctors fetch
      cfg.cache_days now (dictOfList ds) (load_state (some none)).location_cache
      (fun kv _ => rfl) (hpairids ▸ hnd) (fun kv _ => rfl)]
    exact hpairids
  have htotal : 0 < (detect_changes ds (load_state (some none))
        (load_state (some none)).location_cache fetch cfg.cache_days
        now).changes.added.length
      + (detect_changes ds (load_state (some none))
        (load_state (some none)).location_cache fetch cfg.cache_days
        now).changes.removed.length
      + (detect_changes ds (load_state (some none))
        (load_state (some none)).location_cache fetch cfg.cache_days
        now).changes.changed.length := by
    have hlen : (detect_changes ds (load_state (some none))
        (load_state (some none)).location_cache fetch cfg.cache_days
        now).changes.added.length = ds.length := by
      have := congrArg List.length haddedids
      simpa [doctorIds] using this
    have hpos : 0 < ds.length := List.length_pos.mpr hne
    omega
  have hmain : main cfg (some none) (some ds) fetch now true
      = { result := RunResult.exitCode 0
          saved := some
            { doctors := (detect_changes ds (load_state (some none))
                (load_state (some none)).location_cache fetch cfg.cache_days
                now).current_ids
              location_cache := (detect_changes ds (load_state (some none))
                (load_state (some none)).location_cache fetch cfg.cache_days
                now).changes.location_cache }
          notifyAttempt := some (detect_changes ds (load_state (some none))
            (load_state (some none)).location_cache fetch cfg.cache_days
            now).changes
          fetched := (detect_changes ds (load_state (some none))
            (load_state (some none)).location_cache fetch cfg.cache_days
            now).fetched } :=
    (main_steady_outcome cfg none ds fetch now h1 h2 h3 hok hne htotal).2
  refine ⟨⟨(detect_changes ds (load_state (some none))
      (load_state (some none)).location_cache fetch cfg.cache_days
      now).changes, ?_, haddedids, hremoved, hchanged⟩, ?_, ?_, ?_⟩
  · rw [hmain]
  · rw [hmain]
    exact hfetched
  · rw [hmain]
  · rw [hmain]
    rfl

/-- Witness for C10 at a concrete run over an unparsable state file. -/
theorem corrupt_state_file_runs_steady_witness :
    (cfgOk.bot_token ≠ "" ∧ cfgOk.channel_id ≠ "" ∧ cfgOk.search_mode ≠ ""
      ∧ (get_search_url cfgOk).isOk = true
      ∧ [docA, docB] ≠ ([] : List Doctor) ∧ (doctorIds [docA, docB]).Nodup)
    ∧ (main cfgOk (some none) (some [docA, docB]) (fun _ => none) 0
        true).fetched = doctorIds [docA, docB] :=
  ⟨⟨by decide, by decide, by decide, by decide, by decide, by decide⟩,
    (corrupt_state_file_runs_steady cfgOk [docA, docB] (fun _ => none) 0
      (by decide) (by decide) (by decide) (by decide) (by decide)
      (by decide)).2.1⟩

/-- Witness for the amended C3 at a concrete input: the previous-snapshot
entry of the removed doctor A is rewritten in place from the cache. -/
theorem detect_changes_previous_mutation_spec_witness :
    (detect_changes [] stA cacheA (fun _ => none) 7 0).previous_doctors
      = stA.doctors.map (fun kv => (kv.1,
          if dmem (dictOfList []) kv.1 then kv.2
          else withLocations kv.2 (cachedLocations cacheA kv.1))) :=
  (detect_changes_previous_mutation_spec [] stA cacheA (fun _ => none) 7 0).1

end MMG
